import Mathlib

/-!
The script `setup-mcp-servers.mjs`: merge and write path.

A shallow embedding of `src/setup-mcp-servers.mjs`: the configuration builder
(`buildMcpConfig`), the recursive merge (`deepMerge`), the configuration writer
(`writeMcpJson`), the cache warm step (`warmNpxCache`) and the driver (`main`
with its `.catch` handler), followed by theorems about them.

Conventions of the embedding

* A JavaScript value that can occur in a configuration document is a `Json`
  tree.  Numbers are integers (no claim depends on arithmetic; only
  truthiness and `===` of a number are used by the script).
* An object is the list of its own enumerable properties in enumeration
  order; a well-formed object has pairwise distinct property names.  A new
  property is appended at the end (the special placement JavaScript gives to
  array-index names such as "0" is not modelled; no statement below depends
  on the position of a new property).
* `undefined` is `none` in an `Option Json`.
* A function that can throw returns `Except Failure _`.  `Failure.typeError`
  is a thrown `TypeError`, `Failure.syntaxError` the error of `JSON.parse`,
  `Failure.ioError` an exception thrown by a filesystem call, and
  `Failure.outsideModel` marks the few inputs whose JavaScript meaning is not
  representable on `Json` trees (see `strictEq`, `spread`, `mergeKey`,
  `deepMerge`); nothing is claimed about the script on those inputs.
* The filesystem, the clock and what the script did so far are a `World`;
  a function with effects maps a `World` to a `World` and a result.  What
  Node.js and the platform provide (`path.join`, `JSON.parse`,
  `JSON.stringify`, the text codec, `platform()`, `homedir()`, the
  environment, the outcome of a child process) is a `Host`.
-/

namespace McpSetup

/-! ## Values -/

/-- JSON values, the data the script reads, builds and writes. -/
inductive Json where
  | null
  | bool (b : Bool)
  | num (n : Int)
  | str (s : String)
  | arr (items : List Json)
  | obj (props : List (String × Json))

/-- Own enumerable properties of an object, in enumeration order. -/
abbrev Props := List (String × Json)

mutual
/-- Decidable equality of JSON values. -/
def Json.decEq : (a b : Json) → Decidable (a = b)
  | .null, .null => isTrue rfl
  | .bool a, .bool b =>
    if h : a = b then isTrue (by rw [h]) else isFalse (by intro e; cases e; exact h rfl)
  | .num a, .num b =>
    if h : a = b then isTrue (by rw [h]) else isFalse (by intro e; cases e; exact h rfl)
  | .str a, .str b =>
    if h : a = b then isTrue (by rw [h]) else isFalse (by intro e; cases e; exact h rfl)
  | .arr a, .arr b =>
    match Json.decEqItems a b with
    | isTrue h => isTrue (by rw [h])
    | isFalse h => isFalse (by intro e; cases e; exact h rfl)
  | .obj a, .obj b =>
    match Json.decEqProps a b with
    | isTrue h => isTrue (by rw [h])
    | isFalse h => isFalse (by intro e; cases e; exact h rfl)
  | .null, .bool _ | .null, .num _ | .null, .str _ | .null, .arr _ | .null, .obj _
  | .bool _, .null | .bool _, .num _ | .bool _, .str _ | .bool _, .arr _ | .bool _, .obj _
  | .num _, .null | .num _, .bool _ | .num _, .str _ | .num _, .arr _ | .num _, .obj _
  | .str _, .null | .str _, .bool _ | .str _, .num _ | .str _, .arr _ | .str _, .obj _
  | .arr _, .null | .arr _, .bool _ | .arr _, .num _ | .arr _, .str _ | .arr _, .obj _
  | .obj _, .null | .obj _, .bool _ | .obj _, .num _ | .obj _, .str _ | .obj _, .arr _ =>
    isFalse (by intro e; cases e)
/-- Decidable equality of lists of JSON values. -/
def Json.decEqItems : (a b : List Json) → Decidable (a = b)
  | [], [] => isTrue rfl
  | [], _ :: _ => isFalse (by intro e; cases e)
  | _ :: _, [] => isFalse (by intro e; cases e)
  | x :: xs, y :: ys =>
    match Json.decEq x y, Json.decEqItems xs ys with
    | isTrue h1, isTrue h2 => isTrue (by rw [h1, h2])
    | isFalse h, _ => isFalse (by intro e; cases e; exact h rfl)
    | _, isFalse h => isFalse (by intro e; cases e; exact h rfl)
/-- Decidable equality of property lists. -/
def Json.decEqProps : (a b : List (String × Json)) → Decidable (a = b)
  | [], [] => isTrue rfl
  | [], _ :: _ => isFalse (by intro e; cases e)
  | _ :: _, [] => isFalse (by intro e; cases e)
  | (k, x) :: xs, (l, y) :: ys =>
    if hk : k = l then
      match Json.decEq x y, Json.decEqProps xs ys with
      | isTrue h1, isTrue h2 => isTrue (by rw [hk, h1, h2])
      | isFalse h, _ => isFalse (by intro e; cases e; exact h rfl)
      | _, isFalse h => isFalse (by intro e; cases e; exact h rfl)
    else isFalse (by intro e; cases e; exact hk rfl)
end

instance : DecidableEq Json := Json.decEq

/-- What a modelled call can end with instead of a value. -/
inductive Failure where
  /-- A JavaScript `TypeError` was thrown. -/
  | typeError
  /-- `JSON.parse` threw a `SyntaxError`. -/
  | syntaxError
  /-- A filesystem call threw. -/
  | ioError
  /-- The input is outside what `Json` trees can express faithfully. -/
  | outsideModel
  deriving DecidableEq, Repr

deriving instance DecidableEq for Except

/-! ## JavaScript primitives used by `deepMerge` -/

/-- Own property read: `props[key]` for an own property, `none` when absent. -/
def getOwn (key : String) : Props → Option Json
  | [] => none
  | (k, v) :: rest => if k = key then some v else getOwn key rest

/-- Own property write `props[key] = value`: an existing property keeps its
place, a new one is appended. -/
def setOwn (key : String) (value : Json) : Props → Props
  | [] => [(key, value)]
  | (k, v) :: rest =>
    if k = key then (k, value) :: rest else (k, v) :: setOwn key value rest

/-- Property names, `Object.keys`. -/
def keysOf (props : Props) : List String := props.map Prod.fst

/-- JavaScript truthiness of a value (`none` is `undefined`). -/
def truthy : Option Json → Bool
  | none => false
  | some .null => false
  | some (.bool b) => b
  | some (.num n) => n != 0
  | some (.str s) => s != ""
  | some (.arr _) => true
  | some (.obj _) => true

/-- The property read `item.id`: a `TypeError` on `null`, the own property
`id` of an object, `undefined` for every other value (arrays, strings,
numbers and booleans have no property named `id`). -/
def getId : Json → Except Failure (Option Json)
  | .null => .error .typeError
  | .obj props => .ok (getOwn "id" props)
  | _ => .ok none

/-- Strict equality `a === b`.  Primitives compare by value.  Two arrays, or
two objects, compare by reference identity, which a tree does not record:
that case is `outsideModel`. -/
def strictEq : Option Json → Option Json → Except Failure Bool
  | none, none => .ok true
  | some .null, some .null => .ok true
  | some (.bool a), some (.bool b) => .ok (a == b)
  | some (.num a), some (.num b) => .ok (a == b)
  | some (.str a), some (.str b) => .ok (a == b)
  | some (.arr _), some (.arr _) => .error .outsideModel
  | some (.obj _), some (.obj _) => .error .outsideModel
  | _, _ => .ok false

/-- The `findIndex` callback of line 216,
`(existingItem) => existingItem.id && existingItem.id === item.id`, as the
truthiness of its result.  `item.id` is read only when `existingItem.id` is
truthy. -/
def idMatches (item existingItem : Json) : Except Failure Bool :=
  match getId existingItem with
  | .error e => .error e
  | .ok existingId =>
    if truthy existingId then
      match getId item with
      | .error e => .error e
      | .ok itemId => strictEq existingId itemId
    else .ok false

/-- `mergedArray.findIndex(callback)`: the callback runs on the items from
index 0 on and stops at the first truthy answer; `none` is the result `-1`. -/
def findIndex (item : Json) : List Json → Except Failure (Option Nat)
  | [] => .ok none
  | existingItem :: rest =>
    match idMatches item existingItem with
    | .error e => .error e
    | .ok true => .ok (some 0)
    | .ok false =>
      match findIndex item rest with
      | .error e => .error e
      | .ok r => .ok (r.map (· + 1))

/-- Lines 213-223: the loop `for (const item of source[key])` over the
incoming array, started on `mergedArray = [...result[key]]`. -/
def mergeArrays (mergedArray : List Json) : List Json → Except Failure (List Json)
  | [] => .ok mergedArray
  | item :: rest =>
    match findIndex item mergedArray with
    | .error e => .error e
    | .ok (some existingIndex) => mergeArrays (mergedArray.set existingIndex item) rest
    | .ok none => mergeArrays (mergedArray ++ [item]) rest

/-- Index-named properties of a sequence: `0: x0, 1: x1, ...` from `start`. -/
def indexed (start : Nat) : List Json → Props
  | [] => []
  | x :: rest => (toString start, x) :: indexed (start + 1) rest

/-- Object spread `{ ...target }` of line 201: the own enumerable properties
of `target`.  An object gives its properties, an array its items under their
indices, a string its characters under their indices, and `null`, booleans
and numbers give none.  A string is split by UTF-16 code unit in JavaScript;
one holding a character outside the Basic Multilingual Plane is
`outsideModel`. -/
def spread : Json → Except Failure Props
  | .obj props => .ok props
  | .arr items => .ok (indexed 0 items)
  | .str s =>
    if s.data.all (fun c => c.toNat < 65536) then
      .ok (indexed 0 (s.data.map (fun c => Json.str (String.singleton c))))
    else .error .outsideModel
  | _ => .ok []

/-- One turn of the loop of lines 202-228 for `key`, with `value` standing
for `source[key]` and `recurse t` for `deepMerge(t, source[key])`.

* `result[key]` is truthy, has `typeof` "object" and is no array exactly when
  it is an `obj`; `typeof source[key] === "object" && !Array.isArray(...)`
  holds exactly when `source[key]` is an `obj` or `null`.
* When `result` has no own property `key` the read gives `undefined` (or an
  inherited function, whose `typeof` is "function"), so the last branch runs.
  The one exception is the name `__proto__`, whose inherited accessor reads
  and writes the prototype: that case is `outsideModel`. -/
def mergeKey (recurse : Json → Except Failure Json) (result : Props) (key : String)
    (value : Json) : Except Failure Props :=
  match getOwn key result with
  | none =>
    if key = "__proto__" then .error .outsideModel
    else .ok (setOwn key value result)
  | some current =>
    match current, value with
    | .obj _, .obj _ | .obj _, .null =>
      match recurse current with
      | .error e => .error e
      | .ok merged => .ok (setOwn key merged result)
    | .arr existingItems, .arr incomingItems =>
      match mergeArrays existingItems incomingItems with
      | .error e => .error e
      | .ok mergedArray => .ok (setOwn key (.arr mergedArray) result)
    | _, _ => .ok (setOwn key value result)

mutual
/-- The function `deepMerge(target, source)` of lines 200-230.  `source` is an
object at the call of line 248 and an object or `null` at the recursive call
of line 210; on `null`, `Object.keys(source)` throws a `TypeError`.  Other
kinds of `source` are never passed by the script and are `outsideModel`. -/
def deepMerge (target : Json) : Json → Except Failure Json
  | .obj sourceProps =>
    match spread target with
    | .error e => .error e
    | .ok result =>
      match mergeProps result sourceProps with
      | .error e => .error e
      | .ok merged => .ok (.obj merged)
  | .null =>
    match spread target with
    | .error e => .error e
    | .ok _ => .error .typeError
  | _ => .error .outsideModel
/-- The loop `for (const key of Object.keys(source))` of lines 202-228 over
the properties of `source` that are still to be visited. -/
def mergeProps (result : Props) : Props → Except Failure Props
  | [] => .ok result
  | (key, value) :: rest =>
    match mergeKey (fun current => deepMerge current value) result key value with
    | .error e => .error e
    | .ok result1 => mergeProps result1 rest
end

/-! ## Configuration (lines 32-42) and `buildMcpConfig` (lines 134-198) -/

/-- The constant `NPX_PACKAGES` of lines 36-42. -/
def NPX_PACKAGES : List String :=
  [ "@azure-devops/mcp@latest",
    "@modelcontextprotocol/server-sequential-thinking",
    "@modelcontextprotocol/server-memory@latest",
    "mongodb-mcp-server@latest",
    "mssql-mcp-server@latest" ]

/-- The document returned by `buildMcpConfig()`, lines 134-198. -/
def buildMcpConfig : Json :=
  .obj [
    ("inputs", .arr [
      .obj [
        ("id", .str "ado_org"),
        ("type", .str "promptString"),
        ("description", .str "Azure DevOps organization name (e.g. 'myorg')") ] ]),
    ("servers", .obj [
      ("azure-devops", .obj [
        ("type", .str "stdio"),
        ("command", .str "npx"),
        ("args", .arr [.str "-y", .str "@azure-devops/mcp@latest",
          .str "$\x7binput:ado_org\x7d"]) ]),
      ("sequential-thinking", .obj [
        ("type", .str "stdio"),
        ("command", .str "npx"),
        ("args", .arr [.str "-y",
          .str "@modelcontextprotocol/server-sequential-thinking"]) ]),
      ("microsoft-learn", .obj [
        ("type", .str "http"),
        ("url", .str "https://learn.microsoft.com/api/mcp") ]),
      ("memory", .obj [
        ("type", .str "stdio"),
        ("command", .str "npx"),
        ("args", .arr [.str "-y", .str "@modelcontextprotocol/server-memory@latest"]) ]),
      ("mongodb", .obj [
        ("type", .str "stdio"),
        ("command", .str "npx"),
        ("args", .arr [.str "-y", .str "mongodb-mcp-server@latest",
          .str "--connectionString", .str "$\x7benv:MDB_MCP_CONNECTION_STRING\x7d"]) ]),
      ("mssql", .obj [
        ("type", .str "stdio"),
        ("command", .str "npx"),
        ("args", .arr [.str "-y", .str "mssql-mcp-server@latest",
          .str "$\x7benv:MSSQL_MCP_CONNECTION_STRING\x7d"]),
        ("env", .obj [
          ("MSSQL_CONNECTION_STRING", .str "$\x7benv:MSSQL_MCP_CONNECTION_STRING\x7d") ]) ]) ]) ]

/-! ## Host and world -/

/-- Raw file content. -/
abbrev Bytes := List Nat

/-- A file path, kept as the directory and the file name that `path.join`
puts together.  `mcpJsonPath` is `configDir` with the name "mcp.json"; the
backup path, `mcpJsonPath` followed by ".backup." and the time, is the same
directory with the longer name. -/
structure Path where
  dir : String
  name : String
  deriving DecidableEq, Repr

/-- What exists under a path. -/
inductive Node where
  /-- A regular file that can be read, with its content. -/
  | file (content : Bytes)
  /-- Something that exists and on which `readFileSync` throws. -/
  | unreadable
  deriving DecidableEq, Repr

/-- The console functions of lines 61-79. -/
inductive Level where
  | log | logStep | logWarn | logError | logDry
  deriving DecidableEq, Repr

/-- What the script does to the outside, in order: the calls of the logging
helpers, of `mkdirSync`, of `writeFileSync` and of `execSync`.  A call is
recorded whether or not it throws.  The banner and the closing summary of
`main`, printed through `console.log` directly, are not recorded. -/
inductive Event where
  | console (level : Level) (message : String)
  | mkdir (dir : String)
  | writeFile (path : Path) (content : Bytes)
  | exec (command : String)
  deriving DecidableEq, Repr

/-- The filesystem, the clock, and the record of what the script did. -/
structure World where
  /-- The paths that exist, with what is there. -/
  nodes : List (Path × Node)
  /-- Directories that exist although no recorded path lies in them. -/
  dirs : List String
  /-- Directories whose creation throws. -/
  mkdirDenied : List String
  /-- Paths on which `writeFileSync` throws. -/
  writeDenied : List Path
  /-- The value of `Date.now()`. -/
  clock : Nat
  /-- The events so far. -/
  trace : List Event

/-- What Node.js and the platform provide. -/
structure Host where
  /-- The value of `platform()`. -/
  platform : String
  /-- The value of `homedir()`. -/
  home : String
  /-- The value of `process.env.APPDATA`, `none` when unset. -/
  appData : Option String
  /-- The function `path.join` on its segments. -/
  join : List String → String
  /-- The decoding `readFileSync(path, "utf-8")` applies to the bytes. -/
  decode : Bytes → String
  /-- The encoding `writeFileSync(path, text, "utf-8")` applies to the text. -/
  encode : String → Bytes
  /-- The function `JSON.parse`, `none` when it throws. -/
  parse : String → Option Json
  /-- The function `JSON.stringify(value, null, 2)`. -/
  stringify : Json → String
  /-- Whether `execSync(command, ...)` throws (non-zero exit or timeout). -/
  execThrows : String → Bool
  /-- The `message` of a caught error. -/
  messageOf : Failure → String

/-- Append an event to the record. -/
def record (e : Event) (w : World) : World :=
  { w with trace := w.trace ++ [e] }

/-- The helper `log` of lines 61-63. -/
def log (message : String) (w : World) : World := record (.console .log message) w

/-- The helper `logStep` of lines 65-67. -/
def logStep (message : String) (w : World) : World := record (.console .logStep message) w

/-- The helper `logWarn` of lines 69-71. -/
def logWarn (message : String) (w : World) : World := record (.console .logWarn message) w

/-- The helper `logError` of lines 73-75. -/
def logError (message : String) (w : World) : World := record (.console .logError message) w

/-- The helper `logDry` of lines 77-79. -/
def logDry (message : String) (w : World) : World := record (.console .logDry message) w

/-- What is under `path`, `none` when nothing is. -/
def lookupNode (path : Path) : List (Path × Node) → Option Node
  | [] => none
  | (p, n) :: rest => if p = path then some n else lookupNode path rest

/-- Put `node` under `path`, replacing what was there. -/
def storeNode (path : Path) (node : Node) : List (Path × Node) → List (Path × Node)
  | [] => [(path, node)]
  | (p, n) :: rest =>
    if p = path then (p, node) :: rest else (p, n) :: storeNode path node rest

/-- Whether the directory exists: it is recorded, or some path lies in it. -/
def dirExists (w : World) (dir : String) : Bool :=
  decide (dir ∈ w.dirs) || w.nodes.any (fun entry => decide (entry.1.dir = dir))

/-- The call `existsSync(path)`. -/
def existsSync (path : Path) (w : World) : Bool :=
  (lookupNode path w.nodes).isSome

/-- The call `readFileSync(path)`: the bytes of a readable file, an exception
otherwise. -/
def readFileSync (path : Path) (w : World) : Except Failure Bytes :=
  match lookupNode path w.nodes with
  | some (.file content) => .ok content
  | _ => .error .ioError

/-- The call `mkdirSync(dir, { recursive: true })`: nothing to do when the
directory exists, an exception when its creation is denied. -/
def mkdirSync (dir : String) (w : World) : World × Except Failure Unit :=
  let w1 := record (.mkdir dir) w
  if dirExists w dir then (w1, .ok ())
  else if dir ∈ w.mkdirDenied then (w1, .error .ioError)
  else ({ w1 with dirs := w1.dirs ++ [dir] }, .ok ())

/-- The call `writeFileSync(path, content)`: an exception when the directory
is missing or the write is denied, otherwise the file holds `content`. -/
def writeFileSync (path : Path) (content : Bytes) (w : World) : World × Except Failure Unit :=
  let w1 := record (.writeFile path content) w
  if !dirExists w path.dir || decide (path ∈ w.writeDenied) then (w1, .error .ioError)
  else ({ w1 with nodes := storeNode path (.file content) w1.nodes }, .ok ())

/-! ## Path resolution (lines 85-96) -/

/-- The function `getVSCodeUserConfigDir(variant)`; `isWindows` and `isMac`
are `platform() === "win32"` and `platform() === "darwin"`. -/
def getVSCodeUserConfigDir (h : Host) (variant : String) : String :=
  if h.platform = "win32" then
    let appData :=
      match h.appData with
      | some value => if value ≠ "" then value else h.join [h.home, "AppData", "Roaming"]
      | none => h.join [h.home, "AppData", "Roaming"]
    h.join [appData, variant, "User"]
  else if h.platform = "darwin" then
    h.join [h.home, "Library", "Application Support", variant, "User"]
  else
    h.join [h.home, ".config", variant, "User"]

/-! ## Cache warming (lines 104-128) -/

/-- One turn of the loop of lines 107-127. -/
def warmPackage (h : Host) (dryRun : Bool) (w : World) (packageName : String) : World :=
  if dryRun then logDry ("Would pre-cache: " ++ packageName) w
  else
    let command := "npx -y " ++ packageName ++ " --help"
    let w1 := record (.exec command) (log ("Caching " ++ packageName ++ "...") w)
    if h.execThrows command then log ("Cached " ++ packageName ++ " (downloaded)") w1
    else log ("Cached " ++ packageName) w1

/-- The function `warmNpxCache()`. -/
def warmNpxCache (h : Host) (dryRun : Bool) (w : World) : World :=
  NPX_PACKAGES.foldl (warmPackage h dryRun)
    (logStep "Pre-warming npx cache (downloading packages for faster first use)" w)

/-! ## Writing `mcp.json` (lines 232-262) -/

/-- The body of the `try` block, lines 246-248: read the file as text, parse
it, merge the new configuration into it. -/
def tryMerge (h : Host) (mcpJsonPath : Path) (newConfig : Json) (w : World) :
    Except Failure Json :=
  match readFileSync mcpJsonPath w with
  | .error e => .error e
  | .ok content =>
    match h.parse (h.decode content) with
    | none => .error .syntaxError
    | some existingConfig => deepMerge existingConfig newConfig

/-- Lines 242-258: the value of `finalConfig` when line 260 is reached.  The
`catch` clause takes every exception of the `try` block, whichever statement
threw it. -/
def finalConfigFor (h : Host) (mcpJsonPath : Path) (newConfig : Json) (w : World) :
    World × Except Failure Json :=
  let shown := h.join [mcpJsonPath.dir, mcpJsonPath.name]
  if existsSync mcpJsonPath w then
    match tryMerge h mcpJsonPath newConfig w with
    | .ok merged => (log ("Merged with existing config at " ++ shown) w, .ok merged)
    | .error .outsideModel => (w, .error .outsideModel)
    | .error _ =>
      let w1 := logWarn
        ("Could not parse existing " ++ shown ++ " – creating backup and overwriting") w
      let stamp := ".backup." ++ toString w.clock
      let backupPath : Path := ⟨mcpJsonPath.dir, mcpJsonPath.name ++ stamp⟩
      match readFileSync mcpJsonPath w1 with
      | .error e => (w1, .error e)
      | .ok raw =>
        match writeFileSync backupPath raw w1 with
        | (w2, .error e) => (w2, .error e)
        | (w2, .ok _) => (log ("Backup saved to " ++ shown ++ stamp) w2, .ok newConfig)
  else (w, .ok newConfig)

/-- The function `writeMcpJson(configDir, newConfig)`. -/
def writeMcpJson (h : Host) (dryRun : Bool) (configDir : String) (newConfig : Json)
    (w : World) : World × Except Failure Unit :=
  let mcpJsonPath : Path := ⟨configDir, "mcp.json"⟩
  let shown := h.join [configDir, "mcp.json"]
  if dryRun then (logDry ("Would write/merge " ++ shown) w, .ok ())
  else
    match mkdirSync configDir w with
    | (w1, .error e) => (w1, .error e)
    | (w1, .ok _) =>
      match finalConfigFor h mcpJsonPath newConfig w1 with
      | (w2, .error e) => (w2, .error e)
      | (w2, .ok finalConfig) =>
        match writeFileSync mcpJsonPath (h.encode (h.stringify finalConfig)) w2 with
        | (w3, .error e) => (w3, .error e)
        | (w3, .ok _) => (log ("Written " ++ shown) w3, .ok ())

/-! ## Main (lines 268-342) -/

/-- The loop of lines 299-303 over the variants still to be configured.  No
`try` surrounds the call of `writeMcpJson`: an exception leaves the loop. -/
def configureVariants (h : Host) (dryRun : Bool) (mcpConfig : Json) :
    List String → World → World × Except Failure Unit
  | [], w => (w, .ok ())
  | variant :: rest, w =>
    let w1 := logStep ("Configuring " ++ variant) w
    match writeMcpJson h dryRun (getVSCodeUserConfigDir h variant) mcpConfig w1 with
    | (w2, .error e) => (w2, .error e)
    | (w2, .ok _) => configureVariants h dryRun mcpConfig rest w2

/-- The number `Object.keys(mcpConfig.servers).length` of line 294. -/
def serverCount (mcpConfig : Json) : Nat :=
  match mcpConfig with
  | .obj props =>
    match getOwn "servers" props with
    | some (.obj servers) => (keysOf servers).length
    | _ => 0
  | _ => 0

/-- Lines 283-294: the state in which the loop over the variants starts. -/
def beforeVariants (h : Host) (dryRun skipCacheWarm : Bool) (w : World) : World :=
  let w1 :=
    if !skipCacheWarm then warmNpxCache h dryRun w
    else logStep "Skipping npx cache warming (--skip-cache-warm)" w
  let w2 := logStep "Building MCP configuration" w1
  log ("Configured " ++ toString (serverCount buildMcpConfig) ++ " MCP servers") w2

/-- The function `main()`: `DRY_RUN` and `SKIP_CACHE_WARM` are the two flags. -/
def main (h : Host) (dryRun skipCacheWarm : Bool) (w : World) : World × Except Failure Unit :=
  configureVariants h dryRun buildMcpConfig ["Code", "Code - Insiders"]
    (beforeVariants h dryRun skipCacheWarm w)

/-- The statement `main().catch(...)` of lines 339-342 with the exit status of
the process: 0 on normal completion, 1 through `process.exit(1)`. -/
def run (h : Host) (dryRun skipCacheWarm : Bool) (w : World) : World × Except Failure Nat :=
  match main h dryRun skipCacheWarm w with
  | (w1, .ok _) => (w1, .ok 0)
  | (w1, .error .outsideModel) => (w1, .error .outsideModel)
  | (w1, .error e) => (logError ("Fatal error: " ++ h.messageOf e) w1, .ok 1)

/-- An event that reaches the filesystem or spawns a process. -/
def Event.isEffect : Event → Bool
  | .console _ _ => false
  | _ => true

/-! ## Vocabulary of the statements -/

/-- From `w` to `w1` the filesystem is unchanged and no filesystem call or
process spawn was recorded: the paths, the directories, and the recorded
events other than console output are the same. -/
def Untouched (w w1 : World) : Prop :=
  w1.nodes = w.nodes ∧ w1.dirs = w.dirs ∧
    w1.trace.filter Event.isEffect = w.trace.filter Event.isEffect


/-- The `id` of an item when the item is an object whose own property `id`
is a string. -/
def strId : Json → Option String
  | .obj props =>
    match getOwn "id" props with
    | some (.str s) => some s
    | _ => none
  | _ => none

/-- Every item is an object whose `id` is a non-empty string, and no two items
share their `id`. -/
def DistinctIds (items : List Json) : Prop :=
  (∀ x ∈ items, strId x ≠ none ∧ strId x ≠ some "") ∧ (items.map strId).Nodup

instance (items : List Json) : Decidable (DistinctIds items) := by
  unfold DistinctIds; infer_instance

/-- Own property read `x[key]` on a value: `undefined` unless `x` is an object
with that own property. -/
def field (key : String) : Json → Option Json
  | .obj props => getOwn key props
  | _ => none

/-- The item of `incoming` with the same `id` as `a` if there is one, and `a`
otherwise. -/
def replacement (incoming : List Json) (a : Json) : Json :=
  (incoming.find? (fun b => strId b = strId a)).getD a

/-- The items of `incoming` whose `id` does not occur in `existing`. -/
def newItems (existing incoming : List Json) : List Json :=
  incoming.filter (fun b => strId b ∉ existing.map strId)

/-- `item` is an object without an own property `id`. -/
def lacksId : Json → Bool
  | .obj props => (getOwn "id" props).isNone
  | _ => false

/-- `item` is an object. -/
def isObject : Json → Bool
  | .obj _ => true
  | _ => false

/-- The value one loop turn stores under its key, read off the three
branches of lines 203-227: `current` is `result[key]` before the turn and
`value` is `source[key]`. -/
def storedValue (current : Option Json) (value : Json) : Except Failure Json :=
  match current, value with
  | some (.obj t), .obj _ | some (.obj t), .null => deepMerge (.obj t) value
  | some (.arr existingItems), .arr incomingItems =>
    match mergeArrays existingItems incomingItems with
    | .error e => .error e
    | .ok mergedArray => .ok (.arr mergedArray)
  | _, _ => .ok value

mutual
/-- Every array that merging the value with itself reaches — an array that is
the value, or a property value at any depth of nested objects — holds only
objects with non-empty string ids, no two of them the same, and every object
on the way has distinct property names. -/
def idKeyed : Json → Bool
  | .obj props => idKeyedProps props && decide (keysOf props).Nodup
  | .arr items => decide (DistinctIds items)
  | _ => true
/-- The values of all properties are `idKeyed`. -/
def idKeyedProps : Props → Bool
  | [] => true
  | (_, value) :: rest => idKeyed value && idKeyedProps rest
end

/-- An array or an object. -/
def isComposite : Json → Bool
  | .arr _ => true
  | .obj _ => true
  | _ => false

mutual
/-- A value on which the merge neither throws nor leaves the model: it holds
no `null`, no property is named `__proto__`, and no property named `id` holds
an array or an object.  Documents in the shape of section 3 of the
specification are of this kind. -/
def tame : Json → Bool
  | .null => false
  | .obj props => tameProps props
  | .arr items => tameItems items
  | _ => true
/-- The properties of a `tame` object. -/
def tameProps : Props → Bool
  | [] => true
  | (key, value) :: rest =>
    tame value && key != "__proto__" && !(key == "id" && isComposite value) && tameProps rest
/-- The items of a `tame` array. -/
def tameItems : List Json → Bool
  | [] => true
  | item :: rest => tame item && tameItems rest
end

/-- The `args` array of a server of a document. -/
def argsOf (server : String) (document : Json) : Option Json :=
  match field "servers" document with
  | some servers =>
    match field server servers with
    | some descriptor => field "args" descriptor
    | none => none
  | none => none

/-- A document with one input and two servers, none with an `args` array. -/
def sampleStable : Json :=
  .obj [("inputs", .arr [.obj [("id", .str "org"), ("type", .str "promptString")]]),
    ("servers", .obj [
      ("docs", .obj [("type", .str "http"), ("url", .str "https://example.org/mcp")]),
      ("local", .obj [("type", .str "stdio"), ("command", .str "node"),
        ("env", .obj [("MODE", .str "dev")])])])]

/-! ## Sample documents -/

/-- The existing array `[{id:"a",x:1}, {id:"c"}]`. -/
def sampleA : List Json :=
  [.obj [("id", .str "a"), ("x", .num 1)], .obj [("id", .str "c")]]

/-- The incoming array `[{id:"b",x:3}, {id:"a",x:2}]`. -/
def sampleB : List Json :=
  [.obj [("id", .str "b"), ("x", .num 3)], .obj [("id", .str "a"), ("x", .num 2)]]

/-- An existing document with `sampleA` as its inputs and one server of its
own. -/
def sampleExisting : Json :=
  .obj [("inputs", .arr sampleA),
    ("servers", .obj [("mine", .obj [("type", .str "http"), ("url", .str "http://localhost")]),
      ("memory", .obj [("type", .str "stdio"), ("command", .str "node")])])]

/-- An incoming document with `sampleB` as its inputs. -/
def sampleIncoming : Props :=
  [("inputs", .arr sampleB),
    ("servers", .obj [("memory", .obj [("type", .str "stdio"), ("command", .str "npx")])])]

/-- An existing array of two objects without an id. -/
def sampleNoIdA : List Json :=
  [.obj [("x", .num 1)], .obj [("y", .num 2)]]

/-- An incoming array whose first item equals an item of `sampleNoIdA`. -/
def sampleNoIdB : List Json :=
  [.obj [("x", .num 1)], .obj []]

/-- A prompt-input descriptor whose `id` is the empty string. -/
def emptyIdInput : Json :=
  .obj [("id", .str ""), ("type", .str "promptString"), ("description", .str "no name")]

/-- The text of a file that holds the JSON document `{"inputs":[null]}`. -/
def nullInputText : String := "\x7b\"inputs\":[null]\x7d"

/-- A host for the examples: a Linux machine, `/` as separator, one byte per
character, a `JSON.parse` that knows two documents and rejects every other
text, and a `JSON.stringify` that tells the built configuration from other
documents. -/
def sampleHost : Host where
  platform := "linux"
  home := "/home/dev"
  appData := none
  join := fun segments => String.join (segments.intersperse "/")
  decode := fun bytes => String.mk (bytes.map Char.ofNat)
  encode := fun text => text.data.map Char.toNat
  parse := fun text =>
    if text = nullInputText then some (.obj [("inputs", .arr [.null])])
    else if text = "\x7b\x7d" then some (.obj [])
    else none
  stringify := fun value => if value = buildMcpConfig then "built" else "other"
  execThrows := fun _ => false
  messageOf := fun _ => "failed"

/-- The configuration directory of the variant "Code" on `sampleHost`. -/
def sampleDir : String := "/home/dev/.config/Code/User"

/-- A world whose only file is `mcp.json` in `sampleDir`, with the given
content, at time 1700000000000, where nothing is denied. -/
def sampleWorld (content : Bytes) : World where
  nodes := [(⟨sampleDir, "mcp.json"⟩, .file content)]
  dirs := []
  mkdirDenied := []
  writeDenied := []
  clock := 1700000000000
  trace := []

/-- An empty filesystem in which the configuration directory of the variant
"Code" cannot be created. -/
def deniedWorld : World where
  nodes := []
  dirs := []
  mkdirDenied := [sampleDir]
  writeDenied := []
  clock := 1700000000000
  trace := []

/-! ## Theorems -/

theorem strId_eq_some {x : Json} {s : String} (h : strId x = some s) :
    ∃ props, x = .obj props ∧ getOwn "id" props = some (.str s) := by
  cases x with
  | obj props =>
    refine ⟨props, rfl, ?_⟩
    simp only [strId] at h
    split at h
    · next t ht => simp at h; rw [ht, h]
    · simp at h
  | _ => simp [strId] at h

theorem idMatches_strId {item e : Json} {s t : String} (he : strId e = some s)
    (hs : s ≠ "") (ht : strId item = some t) :
    idMatches item e = .ok (decide (s = t)) := by
  obtain ⟨ep, rfl, hep⟩ := strId_eq_some he
  obtain ⟨ip, rfl, hip⟩ := strId_eq_some ht
  simp only [idMatches, getId, hep, hip, truthy, strictEq]
  by_cases h : s = t
  · subst h; simp [hs]
  · simp [h, hs]

theorem findIndex_absent {item : Json} {t : String} (ht : strId item = some t) :
    ∀ (l : List Json), (∀ x ∈ l, ∃ s, strId x = some s ∧ s ≠ "") →
      some t ∉ l.map strId → findIndex item l = .ok none
  | [], _, _ => rfl
  | e :: rest, hall, hnot => by
    obtain ⟨s, hs, hne⟩ := hall e (List.mem_cons_self _ _)
    have hst : s ≠ t := by
      intro h; apply hnot; simp [hs, h]
    have hrest : some t ∉ rest.map strId := by
      intro h; apply hnot; simp only [List.map_cons, List.mem_cons]; exact Or.inr h
    rw [findIndex, idMatches_strId hs hne ht]
    simp [hst, findIndex_absent ht rest (fun x hx => hall x (List.mem_cons_of_mem _ hx)) hrest]

theorem findIndex_present {item : Json} {t : String} (ht : strId item = some t) :
    ∀ (l1 : List Json) (e : Json) (l2 : List Json),
      (∀ x ∈ l1, ∃ s, strId x = some s ∧ s ≠ "") → some t ∉ l1.map strId →
      strId e = some t → t ≠ "" → findIndex item (l1 ++ e :: l2) = .ok (some l1.length)
  | [], e, l2, _, _, he, hne => by
    simp [findIndex, idMatches_strId he hne ht]
  | x :: l1, e, l2, hall, hnot, he, hne => by
    obtain ⟨s, hs, hsne⟩ := hall x (List.mem_cons_self _ _)
    have hst : s ≠ t := by
      intro h; apply hnot; simp [hs, h]
    have hrest : some t ∉ l1.map strId := by
      intro h; apply hnot; simp only [List.map_cons, List.mem_cons]; exact Or.inr h
    have ih := findIndex_present ht l1 e l2
      (fun y hy => hall y (List.mem_cons_of_mem _ hy)) hrest he hne
    simp only [List.cons_append, findIndex, idMatches_strId hs hsne ht]
    simp [hst, ih]

theorem replacement_cons_ne {b x : Json} (B : List Json) (h : strId b ≠ strId x) :
    replacement (b :: B) x = replacement B x := by
  simp [replacement, List.find?_cons, h]

theorem replacement_cons_eq {b x : Json} (B : List Json) (h : strId b = strId x) :
    replacement (b :: B) x = b := by
  simp [replacement, List.find?_cons, h]

theorem replacement_absent {x : Json} (B : List Json) (h : strId x ∉ B.map strId) :
    replacement B x = x := by
  have : B.find? (fun b => strId b = strId x) = none := by
    rw [List.find?_eq_none]
    intro b hb hbx
    apply h
    simp only [decide_eq_true_eq] at hbx
    rw [← hbx]
    exact List.mem_map_of_mem _ hb
  simp [replacement, this]

theorem DistinctIds.tail {b : Json} {B : List Json} (h : DistinctIds (b :: B)) :
    DistinctIds B :=
  ⟨fun x hx => h.1 x (List.mem_cons_of_mem _ hx), (List.nodup_cons.mp h.2).2⟩

theorem DistinctIds.ids {items : List Json} (h : DistinctIds items) :
    ∀ x ∈ items, ∃ s, strId x = some s ∧ s ≠ "" := by
  intro x hx
  obtain ⟨h1, h2⟩ := h.1 x hx
  cases hs : strId x with
  | none => exact absurd hs h1
  | some s => exact ⟨s, rfl, fun e => h2 (by rw [hs, e])⟩

theorem DistinctIds.of_ids {items : List Json}
    (h : ∀ x ∈ items, ∃ s, strId x = some s ∧ s ≠ "") (hnd : (items.map strId).Nodup) :
    DistinctIds items := by
  refine ⟨fun x hx => ?_, hnd⟩
  obtain ⟨s, hs, hne⟩ := h x hx
  rw [hs]
  exact ⟨by simp, by simpa using hne⟩

theorem DistinctIds.head_not_mem {b : Json} {B : List Json} (h : DistinctIds (b :: B)) :
    strId b ∉ B.map strId :=
  (List.nodup_cons.mp h.2).1

/-- The array merge on two arrays of objects with distinct non-empty string
ids: the existing items in their places, each replaced by the incoming item of
the same id when there is one, followed by the incoming items of a new id. -/
theorem mergeArrays_distinct :
    ∀ (B A : List Json), DistinctIds A → DistinctIds B →
      mergeArrays A B = .ok (A.map (replacement B) ++ newItems A B)
  | [], A, _, _ => by
    have : A.map (replacement []) = A := by
      conv_rhs => rw [← List.map_id A]
      exact List.map_congr_left (fun x _ => by simp [replacement])
    simp [mergeArrays, newItems, this]
  | b :: B, A, hA, hB => by
    obtain ⟨t, ht, hne⟩ := hB.ids b (List.mem_cons_self _ _)
    have hbB : some t ∉ B.map strId := ht ▸ hB.head_not_mem
    by_cases hmem : some t ∈ A.map strId
    · obtain ⟨e, heA, het⟩ := List.mem_map.mp hmem
      obtain ⟨l1, l2, rfl⟩ := List.append_of_mem heA
      have hnd := hA.2
      simp only [List.map_append, List.map_cons, het] at hnd
      have h1 : some t ∉ l1.map strId := by
        intro h
        have := (List.nodup_append.mp hnd).2.2
        exact this h (List.mem_cons_self _ _)
      have h2 : some t ∉ l2.map strId :=
        (List.nodup_cons.mp (List.nodup_append.mp hnd).2.1).1
      have hl1 : ∀ x ∈ l1, ∃ s, strId x = some s ∧ s ≠ "" :=
        fun x hx => hA.ids x (List.mem_append_left _ hx)
      have hfi := findIndex_present ht l1 e l2 hl1 h1 het hne
      have hset : (l1 ++ e :: l2).set l1.length b = l1 ++ b :: l2 := by
        simp
      have hids : (l1 ++ b :: l2).map strId = (l1 ++ e :: l2).map strId := by
        simp [ht, het]
      have hA1 : DistinctIds (l1 ++ b :: l2) := by
        refine DistinctIds.of_ids ?_ (hids ▸ hA.2)
        intro x hx
        rcases List.mem_append.mp hx with hx | hx
        · exact hl1 x hx
        · rcases List.mem_cons.mp hx with hx | hx
          · exact hx ▸ ⟨t, ht, hne⟩
          · exact hA.ids x (List.mem_append_right _ (List.mem_cons_of_mem _ hx))
      have ih := mergeArrays_distinct B (l1 ++ b :: l2) hA1 hB.tail
      rw [mergeArrays, hfi]
      simp only [hset, ih]
      have hm1 : l1.map (replacement (b :: B)) = l1.map (replacement B) :=
        List.map_congr_left (fun x hx => replacement_cons_ne B (by
          intro h; apply h1; rw [← ht, h]; exact List.mem_map_of_mem _ hx))
      have hm2 : l2.map (replacement (b :: B)) = l2.map (replacement B) :=
        List.map_congr_left (fun x hx => replacement_cons_ne B (by
          intro h; apply h2; rw [← ht, h]; exact List.mem_map_of_mem _ hx))
      have hb1 : replacement B b = b := replacement_absent B (ht ▸ hbB)
      have he1 : replacement (b :: B) e = b := replacement_cons_eq B (by rw [ht, het])
      have hn : newItems (l1 ++ e :: l2) (b :: B) = newItems (l1 ++ b :: l2) B := by
        have : strId b ∈ (l1 ++ e :: l2).map strId := ht ▸ hmem
        unfold newItems
        rw [List.filter_cons, decide_eq_false (not_not_intro this), hids]
        rfl
      simp only [List.map_append, List.map_cons, hm1, hm2, hb1, he1, hn]
    · have hfi := findIndex_absent ht A hA.ids hmem
      have hA1 : DistinctIds (A ++ [b]) := by
        refine DistinctIds.of_ids ?_ ?_
        · intro x hx
          rcases List.mem_append.mp hx with hx | hx
          · exact hA.ids x hx
          · rw [List.mem_singleton.mp hx]; exact ⟨t, ht, hne⟩
        · simp only [List.map_append, List.map_cons, List.map_nil]
          refine List.nodup_append.mpr ⟨hA.2, List.nodup_singleton _, ?_⟩
          intro a ha hb
          rw [List.mem_singleton.mp hb, ht] at ha
          exact hmem ha
      have ih := mergeArrays_distinct B (A ++ [b]) hA1 hB.tail
      rw [mergeArrays, hfi]
      simp only [ih]
      have hm : A.map (replacement (b :: B)) = A.map (replacement B) :=
        List.map_congr_left (fun x hx => replacement_cons_ne B (by
          intro h; apply hmem; rw [← ht, h]; exact List.mem_map_of_mem _ hx))
      have hb1 : replacement B b = b := replacement_absent B (ht ▸ hbB)
      have hn : newItems A (b :: B) = b :: newItems (A ++ [b]) B := by
        have hb : strId b ∉ A.map strId := ht ▸ hmem
        unfold newItems
        rw [List.filter_cons, decide_eq_true hb, if_pos rfl]
        congr 1
        apply List.filter_congr
        intro x hx
        have hxt : strId x ≠ strId b := by
          intro h; apply hbB; rw [← ht, ← h]; exact List.mem_map_of_mem _ hx
        simp [hxt]
      simp only [List.map_append, List.map_cons, List.map_nil, hm, hb1, hn,
        List.append_assoc, List.singleton_append]

/-! ### Property reads after a merge -/

theorem getOwn_setOwn_self (k : String) (v : Json) :
    ∀ (r : Props), getOwn k (setOwn k v r) = some v
  | [] => by simp [setOwn, getOwn]
  | (k1, v1) :: r => by
    by_cases h : k1 = k
    · simp [setOwn, getOwn, h]
    · simp [setOwn, getOwn, h, getOwn_setOwn_self k v r]

theorem getOwn_setOwn_ne {k key : String} (v : Json) (h : k ≠ key) :
    ∀ (r : Props), getOwn k (setOwn key v r) = getOwn k r
  | [] => by simp [setOwn, getOwn, Ne.symm h]
  | (k1, v1) :: r => by
    by_cases h1 : k1 = key
    · have : ¬ k1 = k := fun e => h (e ▸ h1)
      simp [setOwn, getOwn, h1, Ne.symm h]
    · simp [setOwn, getOwn, h1, getOwn_setOwn_ne v h r]

theorem getOwn_eq_none_of_not_mem {k : String} :
    ∀ {r : Props}, k ∉ keysOf r → getOwn k r = none
  | [], _ => rfl
  | (k1, v1) :: r, h => by
    have h1 : ¬ k1 = k := fun e => h (by simp [keysOf, e])
    have h2 : k ∉ keysOf r := fun e => h (by simp [keysOf] at e ⊢; exact Or.inr e)
    simp [getOwn, h1, getOwn_eq_none_of_not_mem h2]

/-- A loop turn that returns has stored `storedValue` under its key and has
touched no other property. -/
theorem mergeKey_ok {result r1 : Props} {key : String} {value : Json}
    (h : mergeKey (fun current => deepMerge current value) result key value = .ok r1) :
    ∃ m, storedValue (getOwn key result) value = .ok m ∧ r1 = setOwn key m result := by
  unfold mergeKey at h
  unfold storedValue
  split at h
  · next hget =>
    split at h
    · cases h
    · rw [hget]
      simp only [Except.ok.injEq] at h
      exact ⟨value, by simp, h.symm⟩
  · next cur hget =>
    rw [hget]
    split at h
    · split at h
      · cases h
      · next merged hm =>
        simp only [Except.ok.injEq] at h
        exact ⟨merged, by simpa using hm, h.symm⟩
    · split at h
      · cases h
      · next merged hm =>
        simp only [Except.ok.injEq] at h
        exact ⟨merged, by simpa using hm, h.symm⟩
    · next a b hm =>
      split at h
      · cases h
      · next mergedArray hma =>
        simp only [Except.ok.injEq] at h
        exact ⟨.arr mergedArray, by simp [hma], h.symm⟩
    · next h1 h2 h3 =>
      simp only [Except.ok.injEq] at h
      refine ⟨value, ?_, h.symm⟩
      split
      · next heq => exact (h1 _ _ (Option.some.inj heq) rfl).elim
      · next heq => exact (h2 _ (Option.some.inj heq) rfl).elim
      · next heq => exact (h3 _ _ (Option.some.inj heq) rfl).elim
      · rfl

theorem mergeProps_cons_ok {result R : Props} {key : String} {value : Json} {rest : Props}
    (h : mergeProps result ((key, value) :: rest) = .ok R) :
    ∃ m, storedValue (getOwn key result) value = .ok m ∧
      mergeProps (setOwn key m result) rest = .ok R := by
  rw [mergeProps] at h
  split at h
  · cases h
  · next r1 h1 =>
    obtain ⟨m, hm, rfl⟩ := mergeKey_ok h1
    exact ⟨m, hm, h⟩

/-- Properties the incoming object does not name are carried through. -/
theorem mergeProps_untouched :
    ∀ (sourceProps result : Props) {R : Props}, mergeProps result sourceProps = .ok R →
      ∀ k, k ∉ keysOf sourceProps → getOwn k R = getOwn k result
  | [], result, R, h, k, _ => by
    simp only [mergeProps, Except.ok.injEq] at h
    rw [h]
  | (key, value) :: rest, result, R, h, k, hk => by
    obtain ⟨m, _, hrest⟩ := mergeProps_cons_ok h
    have hne : k ≠ key := fun e => hk (by simp [keysOf, e])
    have hk1 : k ∉ keysOf rest := fun e => hk (by simp [keysOf] at e ⊢; exact Or.inr e)
    rw [mergeProps_untouched rest _ hrest k hk1, getOwn_setOwn_ne m hne]

/-- A property the incoming object names holds, after the loop, the value
its loop turn stored. -/
theorem mergeProps_stored :
    ∀ (sourceProps result : Props) {R : Props}, (keysOf sourceProps).Nodup →
      mergeProps result sourceProps = .ok R →
      ∀ k v, getOwn k sourceProps = some v →
        ∃ m, storedValue (getOwn k result) v = .ok m ∧ getOwn k R = some m
  | [], _, _, _, _, k, v, hv => by simp [getOwn] at hv
  | (key, value) :: rest, result, R, hnd, h, k, v, hv => by
    obtain ⟨m, hm, hrest⟩ := mergeProps_cons_ok h
    have hnd1 : key ∉ keysOf rest ∧ (keysOf rest).Nodup := by
      simpa [keysOf] using hnd
    by_cases hk : key = k
    · subst hk
      simp only [getOwn, if_true, Option.some.injEq] at hv
      subst hv
      refine ⟨m, hm, ?_⟩
      rw [mergeProps_untouched rest _ hrest key hnd1.1, getOwn_setOwn_self]
    · simp only [getOwn, hk, if_false] at hv
      obtain ⟨m1, hm1, hR⟩ := mergeProps_stored rest _ hnd1.2 hrest k v hv
      rw [getOwn_setOwn_ne m (Ne.symm hk)] at hm1
      exact ⟨m1, hm1, hR⟩

theorem deepMerge_obj_ok {target R : Json} {sourceProps : Props}
    (h : deepMerge target (.obj sourceProps) = .ok R) :
    ∃ result merged, spread target = .ok result ∧
      mergeProps result sourceProps = .ok merged ∧ R = .obj merged := by
  rw [deepMerge] at h
  split at h
  · cases h
  · next result hs =>
    split at h
    · cases h
    · next merged hm =>
      simp only [Except.ok.injEq] at h
      exact ⟨result, merged, hs, hm, h.symm⟩

/-- What `deepMerge` leaves under a key that holds an array on both sides. -/
theorem deepMerge_array_field {E R : Json} {I : Props} {k : String} {A B M : List Json}
    (hE : field k E = some (.arr A)) (hI : getOwn k I = some (.arr B))
    (hkeys : (keysOf I).Nodup) (hM : mergeArrays A B = .ok M)
    (h : deepMerge E (.obj I) = .ok R) : field k R = some (.arr M) := by
  obtain ⟨result, merged, hs, hm, rfl⟩ := deepMerge_obj_ok h
  cases E with
  | obj es =>
    simp only [spread, Except.ok.injEq] at hs
    subst hs
    obtain ⟨m, hst, hget⟩ := mergeProps_stored I es hkeys hm k _ hI
    simp only [field] at hE
    rw [hE] at hst
    simp only [storedValue, hM, Except.ok.injEq] at hst
    simp only [field, hget, hst]
  | _ => simp [field] at hE

/-! ### Items without an id -/

theorem idMatches_lacksId {item e : Json} (he : isObject e = true) (hb : lacksId item = true) :
    idMatches item e = .ok false := by
  cases e with
  | obj ep =>
    cases item with
    | obj ip =>
      simp only [lacksId, Option.isNone_iff_eq_none] at hb
      simp only [idMatches, getId, hb]
      split
      · next ht =>
        cases hid : getOwn "id" ep with
        | none => simp [hid, truthy] at ht
        | some v => cases v <;> rfl
      · rfl
    | _ => simp [lacksId] at hb
  | _ => simp [isObject] at he

theorem findIndex_lacksId {item : Json} (hb : lacksId item = true) :
    ∀ (l : List Json), (∀ x ∈ l, isObject x = true) → findIndex item l = .ok none
  | [], _ => rfl
  | e :: rest, h => by
    rw [findIndex, idMatches_lacksId (h e (List.mem_cons_self _ _)) hb]
    simp [findIndex_lacksId hb rest (fun x hx => h x (List.mem_cons_of_mem _ hx))]

theorem isObject_of_lacksId {x : Json} (h : lacksId x = true) : isObject x = true := by
  cases x <;> simp_all [lacksId, isObject]

theorem mergeArrays_lacksId :
    ∀ (B A : List Json), (∀ a ∈ A, isObject a = true) → (∀ b ∈ B, lacksId b = true) →
      mergeArrays A B = .ok (A ++ B)
  | [], A, _, _ => by simp [mergeArrays]
  | b :: B, A, hA, hB => by
    have hb := hB b (List.mem_cons_self _ _)
    have hA1 : ∀ a ∈ A ++ [b], isObject a = true := by
      intro a ha
      rcases List.mem_append.mp ha with ha | ha
      · exact hA a ha
      · rw [List.mem_singleton.mp ha]; exact isObject_of_lacksId hb
    rw [mergeArrays, findIndex_lacksId hb A hA]
    simp only
    rw [mergeArrays_lacksId B (A ++ [b]) hA1 (fun x hx => hB x (List.mem_cons_of_mem _ hx))]
    simp

/-! ### Ids after an array merge -/

theorem strId_replacement (B : List Json) (a : Json) : strId (replacement B a) = strId a := by
  unfold replacement
  cases hf : B.find? (fun b => strId b = strId a) with
  | none => rfl
  | some b =>
    have := List.find?_some hf
    simpa using this

theorem map_strId_replacement (B A : List Json) :
    (A.map (replacement B)).map strId = A.map strId := by
  rw [List.map_map]
  exact List.map_congr_left (fun a _ => strId_replacement B a)

theorem mem_newItems {A B : List Json} {x : Json} :
    x ∈ newItems A B ↔ x ∈ B ∧ strId x ∉ A.map strId := by
  simp [newItems, List.mem_filter]

theorem merged_ids_nodup {A B : List Json} (hA : DistinctIds A) (hB : DistinctIds B) :
    ((A.map (replacement B) ++ newItems A B).map strId).Nodup := by
  rw [List.map_append, map_strId_replacement]
  refine List.nodup_append.mpr ⟨hA.2, ?_, ?_⟩
  · exact List.Nodup.sublist (List.Sublist.map _ (List.filter_sublist _)) hB.2
  · intro i hi hj
    obtain ⟨x, hx, rfl⟩ := List.mem_map.mp hj
    exact (mem_newItems.mp hx).2 hi

theorem merged_item_of_incoming {A B : List Json} (hB : DistinctIds B) {b x : Json}
    (hb : b ∈ B) (hx : x ∈ A.map (replacement B) ++ newItems A B)
    (hid : strId x = strId b) : x = b := by
  have inj := List.inj_on_of_nodup_map hB.2
  rcases List.mem_append.mp hx with hx | hx
  · obtain ⟨a, _, rfl⟩ := List.mem_map.mp hx
    rw [strId_replacement] at hid
    unfold replacement
    cases hf : B.find? (fun c => strId c = strId a) with
    | none =>
      have := List.find?_eq_none.mp hf b hb
      simp [hid] at this
    | some c =>
      have hc : strId c = strId a := by simpa using List.find?_some hf
      simpa using inj (List.mem_of_find?_eq_some hf) hb (hc.trans hid)
  · exact inj (mem_newItems.mp hx).1 hb hid

theorem items_with_id_once {s : String} :
    ∀ (M : List Json), (M.map strId).Nodup → some s ∈ M.map strId →
      (M.filter (fun x => strId x = some s)).length = 1
  | [], _, h => by simp at h
  | x :: M, hnd, h => by
    obtain ⟨hx, hM⟩ := List.nodup_cons.mp hnd
    by_cases hs : strId x = some s
    · have hnil : M.filter (fun y => strId y = some s) = [] := by
        rw [List.filter_eq_nil_iff]
        intro y hy hys
        simp only [decide_eq_true_eq] at hys
        exact hx (hs ▸ hys ▸ List.mem_map_of_mem _ hy)
      simp [List.filter_cons, hs, hnil]
    · have hmem : some s ∈ M.map strId := by
        rcases List.mem_cons.mp h with h | h
        · exact absurd h.symm hs
        · exact h
      simp [List.filter_cons, hs, items_with_id_once M hM hmem]

/-! ### Merging a document with itself -/

theorem setOwn_same {k : String} {v : Json} :
    ∀ {r : Props}, getOwn k r = some v → setOwn k v r = r
  | [], h => by simp [getOwn] at h
  | (k1, v1) :: r, h => by
    by_cases hk : k1 = k
    · simp only [getOwn, hk, if_true, Option.some.injEq] at h
      simp [setOwn, hk, h]
    · simp only [getOwn, hk, if_false] at h
      simp [setOwn, hk, setOwn_same h]

/-- A loop turn on a key that `result` owns stores `storedValue`. -/
theorem mergeKey_of_storedValue {result : Props} {key : String} {current value m : Json}
    (hget : getOwn key result = some current)
    (hst : storedValue (some current) value = .ok m) :
    mergeKey (fun c => deepMerge c value) result key value = .ok (setOwn key m result) := by
  unfold mergeKey
  rw [hget]
  unfold storedValue at hst
  cases current with
  | arr a =>
    cases value with
    | arr b =>
      simp only at hst ⊢
      cases hm : mergeArrays a b with
      | error e => rw [hm] at hst; cases hst
      | ok mergedArray =>
        rw [hm] at hst
        simp only [Except.ok.injEq] at hst
        simp only [hst]
    | _ => simp_all
  | _ => cases value <;> simp_all

theorem replacement_self {A : List Json} (hA : DistinctIds A) {x : Json} (hx : x ∈ A) :
    replacement A x = x := by
  unfold replacement
  cases hf : A.find? (fun c => strId c = strId x) with
  | none => rfl
  | some c =>
    have hc : strId c = strId x := by simpa using List.find?_some hf
    simpa using List.inj_on_of_nodup_map hA.2 (List.mem_of_find?_eq_some hf) hx hc

theorem mergeArrays_self {A : List Json} (hA : DistinctIds A) : mergeArrays A A = .ok A := by
  rw [mergeArrays_distinct A A hA hA]
  have h1 : A.map (replacement A) = A := by
    conv_rhs => rw [← List.map_id A]
    exact List.map_congr_left (fun x hx => replacement_self hA hx)
  have h2 : newItems A A = [] := by
    unfold newItems
    rw [List.filter_eq_nil_iff]
    intro x hx
    simpa using ⟨x, hx, rfl⟩
  rw [h1, h2, List.append_nil]

theorem getOwn_of_mem {k : String} {v : Json} :
    ∀ {props : Props}, (keysOf props).Nodup → (k, v) ∈ props → getOwn k props = some v
  | [], _, h => by simp at h
  | (k1, v1) :: rest, hnd, h => by
    have hnd1 : k1 ∉ keysOf rest ∧ (keysOf rest).Nodup := by simpa [keysOf] using hnd
    rcases List.mem_cons.mp h with h | h
    · cases h; simp [getOwn]
    · have hne : ¬ k1 = k := by
        intro e
        apply hnd1.1
        rw [e]
        exact List.mem_map_of_mem Prod.fst h
      simp [getOwn, hne, getOwn_of_mem hnd1.2 h]

/-- The loop leaves `result` as it is when every property still to be visited
is owned by `result` with the same value and merging that value with itself
gives it back. -/
theorem mergeProps_self :
    ∀ (rest result : Props),
      (∀ k v, (k, v) ∈ rest → getOwn k result = some v ∧ storedValue (some v) v = .ok v) →
      mergeProps result rest = .ok result
  | [], _, _ => rfl
  | (key, value) :: rest, result, h => by
    obtain ⟨hget, hst⟩ := h key value (List.mem_cons_self _ _)
    rw [mergeProps, mergeKey_of_storedValue hget hst, setOwn_same hget]
    exact mergeProps_self rest result (fun k v hkv => h k v (List.mem_cons_of_mem _ hkv))

mutual
theorem storedValue_self : (v : Json) → idKeyed v = true → storedValue (some v) v = .ok v
  | .obj props, h => by
    simp only [idKeyed, Bool.and_eq_true, decide_eq_true_eq] at h
    have hall := storedValue_props props h.1
    simp only [storedValue, deepMerge, spread]
    rw [mergeProps_self props props
      (fun k v hkv => ⟨getOwn_of_mem h.2 hkv, hall k v hkv⟩)]
  | .arr items, h => by
    simp only [idKeyed, decide_eq_true_eq] at h
    simp only [storedValue, mergeArrays_self h]
  | .null, _ => rfl
  | .bool _, _ => rfl
  | .num _, _ => rfl
  | .str _, _ => rfl
theorem storedValue_props :
    (props : Props) → idKeyedProps props = true →
      ∀ k v, (k, v) ∈ props → storedValue (some v) v = .ok v
  | [], _, _, _, h => by simp at h
  | (k1, v1) :: rest, h, k, v, hkv => by
    simp only [idKeyedProps, Bool.and_eq_true] at h
    rcases List.mem_cons.mp hkv with hkv | hkv
    · cases hkv
      exact storedValue_self _ h.1
    · exact storedValue_props rest h.2 k v hkv
end

/-! ### The merge returns on tame documents -/

theorem tameItems_iff {items : List Json} :
    tameItems items = true ↔ ∀ x ∈ items, tame x = true := by
  induction items with
  | nil => simp [tameItems]
  | cons x rest ih => simp [tameItems, ih]

theorem tame_getOwn {k : String} {v : Json} :
    ∀ {props : Props}, tameProps props = true → getOwn k props = some v →
      tame v = true ∧ (k = "id" → isComposite v = false)
  | [], _, h => by simp [getOwn] at h
  | (k1, v1) :: rest, ht, h => by
    simp only [tameProps, Bool.and_eq_true, Bool.not_eq_true', Bool.and_eq_false_imp,
      beq_iff_eq] at ht
    by_cases hk : k1 = k
    · simp only [getOwn, hk, if_true, Option.some.injEq] at h
      subst h
      exact ⟨ht.1.1.1, fun e => ht.1.2 (hk.trans e)⟩
    · simp only [getOwn, hk, if_false] at h
      exact tame_getOwn ht.2 h

theorem tameProps_setOwn {k : String} {v : Json} (hv : tame v = true)
    (hk : k ≠ "__proto__") (hid : k = "id" → isComposite v = false) :
    ∀ {props : Props}, tameProps props = true → tameProps (setOwn k v props) = true
  | [], _ => by
    simp only [setOwn, tameProps, Bool.and_eq_true, Bool.not_eq_true', Bool.and_eq_false_imp,
      beq_iff_eq, bne_iff_ne, ne_eq]
    exact ⟨⟨⟨hv, hk⟩, hid⟩, trivial⟩
  | (k1, v1) :: rest, ht => by
    simp only [tameProps, Bool.and_eq_true, Bool.not_eq_true', Bool.and_eq_false_imp,
      beq_iff_eq, bne_iff_ne, ne_eq] at ht
    by_cases h1 : k1 = k
    · simp only [setOwn, h1, if_true, tameProps, Bool.and_eq_true, Bool.not_eq_true',
        Bool.and_eq_false_imp, beq_iff_eq, bne_iff_ne, ne_eq]
      exact ⟨⟨⟨hv, hk⟩, hid⟩, ht.2⟩
    · simp only [setOwn, h1, if_false, tameProps, Bool.and_eq_true, Bool.not_eq_true',
        Bool.and_eq_false_imp, beq_iff_eq, bne_iff_ne, ne_eq]
      exact ⟨ht.1, tameProps_setOwn hv hk hid ht.2⟩

theorem strictEq_primitive {v : Json} (hv : isComposite v = false) (x : Option Json) :
    ∃ b, strictEq (some v) x = .ok b := by
  cases v with
  | arr _ => simp [isComposite] at hv
  | obj _ => simp [isComposite] at hv
  | _ =>
    cases x with
    | none => exact ⟨_, rfl⟩
    | some y => cases y <;> exact ⟨_, rfl⟩

theorem idMatches_tame {item e : Json} (he : tame e = true) (hi : tame item = true) :
    ∃ b, idMatches item e = .ok b := by
  have hitem : ∃ x, getId item = .ok x := by
    cases item with
    | null => simp [tame] at hi
    | _ => exact ⟨_, rfl⟩
  obtain ⟨x, hx⟩ := hitem
  cases e with
  | null => simp [tame] at he
  | obj ep =>
    unfold idMatches
    rw [hx]
    simp only [getId]
    cases hid : getOwn "id" ep with
    | none => exact ⟨false, by simp [truthy]⟩
    | some v =>
      split
      · exact strictEq_primitive ((tame_getOwn he hid).2 rfl) x
      · exact ⟨_, rfl⟩
  | _ => exact ⟨false, rfl⟩

theorem findIndex_tame {item : Json} (hi : tame item = true) :
    ∀ (l : List Json), (∀ x ∈ l, tame x = true) → ∃ r, findIndex item l = .ok r
  | [], _ => ⟨none, rfl⟩
  | e :: rest, h => by
    obtain ⟨b, hb⟩ := idMatches_tame (h e (List.mem_cons_self _ _)) hi
    obtain ⟨r, hr⟩ := findIndex_tame hi rest (fun x hx => h x (List.mem_cons_of_mem _ hx))
    rw [findIndex, hb]
    cases b with
    | true => exact ⟨_, rfl⟩
    | false => simp only [hr]; exact ⟨_, rfl⟩

theorem mergeArrays_tame :
    ∀ (B A : List Json), (∀ x ∈ A, tame x = true) → (∀ x ∈ B, tame x = true) →
      ∃ M, mergeArrays A B = .ok M ∧ ∀ x ∈ M, tame x = true
  | [], A, hA, _ => ⟨A, rfl, hA⟩
  | b :: B, A, hA, hB => by
    have hb := hB b (List.mem_cons_self _ _)
    have hB1 : ∀ x ∈ B, tame x = true := fun x hx => hB x (List.mem_cons_of_mem _ hx)
    obtain ⟨r, hr⟩ := findIndex_tame hb A hA
    rw [mergeArrays, hr]
    cases r with
    | none =>
      refine mergeArrays_tame B (A ++ [b]) ?_ hB1
      intro x hx
      rcases List.mem_append.mp hx with hx | hx
      · exact hA x hx
      · rw [List.mem_singleton.mp hx]; exact hb
    | some i =>
      refine mergeArrays_tame B (A.set i b) ?_ hB1
      intro x hx
      rcases List.mem_or_eq_of_mem_set hx with hx | hx
      · exact hA x hx
      · rw [hx]; exact hb

mutual
/-- On tame values `deepMerge` returns, and what it returns is tame. -/
theorem deepMerge_tame :
    (source target : Json) → isObject source = true → tame source = true →
      isObject target = true → tame target = true →
      ∃ R, deepMerge target source = .ok R ∧ tame R = true
  | .obj sourceProps, target, _, hs, hto, ht => by
    cases target with
    | obj targetProps =>
      obtain ⟨merged, hm, hmt⟩ := mergeProps_tame sourceProps targetProps hs ht
      exact ⟨.obj merged, by simp [deepMerge, spread, hm], hmt⟩
    | _ => simp [isObject] at hto
  | .null, _, h, _, _, _ => by simp [isObject] at h
  | .bool _, _, h, _, _, _ => by simp [isObject] at h
  | .num _, _, h, _, _, _ => by simp [isObject] at h
  | .str _, _, h, _, _, _ => by simp [isObject] at h
  | .arr _, _, h, _, _, _ => by simp [isObject] at h
theorem mergeProps_tame :
    (sourceProps result : Props) → tameProps sourceProps = true → tameProps result = true →
      ∃ merged, mergeProps result sourceProps = .ok merged ∧ tameProps merged = true
  | [], result, _, hr => ⟨result, rfl, hr⟩
  | (key, value) :: rest, result, hs, hr => by
    simp only [tameProps, Bool.and_eq_true, Bool.not_eq_true', Bool.and_eq_false_imp,
      beq_iff_eq, bne_iff_ne, ne_eq] at hs
    obtain ⟨⟨⟨hv, hk⟩, hid⟩, hrest⟩ := hs
    have step : ∃ m, mergeKey (fun c => deepMerge c value) result key value =
        .ok (setOwn key m result) ∧ tame m = true ∧ (key = "id" → isComposite m = false) := by
      cases hget : getOwn key result with
      | none => exact ⟨value, by simp [mergeKey, hget, hk], hv, hid⟩
      | some current =>
        have hc := (tame_getOwn hr hget).1
        cases current with
        | obj t =>
          cases value with
          | obj sp =>
            obtain ⟨R, hR, hRt⟩ := deepMerge_tame (.obj sp) (.obj t) rfl hv rfl hc
            refine ⟨R, mergeKey_of_storedValue hget (by simpa [storedValue] using hR), hRt, ?_⟩
            intro e
            have := hid e
            simp [isComposite] at this
          | null => simp [tame] at hv
          | _ => exact ⟨_, mergeKey_of_storedValue hget (by rfl), hv, hid⟩
        | arr a =>
          cases value with
          | arr b =>
            obtain ⟨M, hM, hMt⟩ := mergeArrays_tame b a
              (tameItems_iff.mp (by simpa [tame] using hc))
              (tameItems_iff.mp (by simpa [tame] using hv))
            refine ⟨.arr M, mergeKey_of_storedValue hget (by simp [storedValue, hM]), ?_, ?_⟩
            · simpa [tame] using tameItems_iff.mpr hMt
            · intro e
              have := hid e
              simp [isComposite] at this
          | _ => exact ⟨_, mergeKey_of_storedValue hget (by rfl), hv, hid⟩
        | _ => exact ⟨_, mergeKey_of_storedValue hget (by cases value <;> rfl), hv, hid⟩
    obtain ⟨m, hm, hmt, hmid⟩ := step
    obtain ⟨merged, hmerged, hmergedt⟩ :=
      mergeProps_tame rest (setOwn key m result) hrest (tameProps_setOwn hmt hk hmid hr)
    exact ⟨merged, by rw [mergeProps, hm]; exact hmerged, hmergedt⟩
end

/-- On a tame existing object and a tame incoming object the merge returns. -/
theorem deepMerge_returns {E : Json} {I : Props} {k : String} {v : Json}
    (hE : field k E = some v) (hEt : tame E = true) (hIt : tame (.obj I) = true) :
    ∃ R, deepMerge E (.obj I) = .ok R := by
  have hobj : isObject E = true := by
    cases E <;> simp_all [field, isObject]
  obtain ⟨R, hR, _⟩ := deepMerge_tame (.obj I) E rfl hIt hobj hEt
  exact ⟨R, hR⟩

/-- The document `buildMcpConfig()` returns is tame. -/
theorem buildMcpConfig_tame : tame buildMcpConfig = true := by decide

/-! ### Claims on `deepMerge` -/

/-- C1 as stated fails on the document `buildMcpConfig()` returns: merging it
with itself returns a document that differs from it, in which the `args` of
the server "memory" hold the two arguments twice. -/
theorem C1_built_config_counterexample :
    deepMerge buildMcpConfig buildMcpConfig ≠ .ok buildMcpConfig ∧
    argsOf "memory" buildMcpConfig =
      some (.arr [.str "-y", .str "@modelcontextprotocol/server-memory@latest"]) ∧
    (match deepMerge buildMcpConfig buildMcpConfig with
      | .ok merged => argsOf "memory" merged
      | .error _ => none) =
      some (.arr [.str "-y", .str "@modelcontextprotocol/server-memory@latest",
        .str "-y", .str "@modelcontextprotocol/server-memory@latest"]) := by
  decide

/-- C1, amended (idempotence on id-keyed documents).  For every object `D`
with distinct property names at every level in which each array reached by
the merge — `inputs`, and any array inside `servers` and its descriptors —
holds only objects with pairwise distinct non-empty string ids (an empty
array among them), `deepMerge(D, D)` returns `D`. -/
theorem C1_self_merge_of_id_keyed (D : Json) (hobj : isObject D = true)
    (hkeyed : idKeyed D = true) : deepMerge D D = .ok D := by
  cases D with
  | obj props =>
    have h := storedValue_self (.obj props) hkeyed
    simpa only [storedValue] using h
  | _ => simp [isObject] at hobj

/-- C1, amended, on `sampleStable`. -/
theorem C1_self_merge_of_id_keyed_witness :
    isObject sampleStable = true ∧ idKeyed sampleStable = true ∧
    deepMerge sampleStable sampleStable = .ok sampleStable :=
  ⟨by decide, by decide, C1_self_merge_of_id_keyed sampleStable (by decide) (by decide)⟩

/-- C6 (array-merge identity rule).  When a key holds an array `A` in the
existing object and an array `B` in the incoming object, both of objects with
non-empty string ids distinct within each array, the array merge returns an
array `M` that `deepMerge` stores under the key; `M` has length
`|A| + (number of items of B whose id is not in A)`, its item at an index
`i < |A|` is the item of `B` with the id of `A[i]` if there is one and `A[i]`
otherwise, and the remaining items are the items of `B` with an id not in `A`,
in the order of `B`.  The property names of the incoming object are distinct,
as in every JavaScript object.  On tame objects `deepMerge` does return.  Merging
`[{id:"a",x:1}]` with `[{id:"a",x:2},{id:"b",x:3}]` gives
`[{id:"a",x:2},{id:"b",x:3}]`. -/
theorem C6_array_merge_identity_rule (E : Json) (I : Props) (k : String) (A B : List Json)
    (hE : field k E = some (.arr A)) (hI : getOwn k I = some (.arr B))
    (hkeys : (keysOf I).Nodup) (hA : DistinctIds A) (hB : DistinctIds B) :
    (∃ M, mergeArrays A B = .ok M ∧
      (∀ R, deepMerge E (.obj I) = .ok R → field k R = some (.arr M)) ∧
      M.length = A.length + (newItems A B).length ∧
      (∀ i (hi : i < A.length), M[i]? = some (replacement B A[i])) ∧
      M.drop A.length = newItems A B) ∧
    (tame E = true → tame (.obj I) = true → ∃ R, deepMerge E (.obj I) = .ok R) ∧
    deepMerge
        (.obj [("inputs", .arr [.obj [("id", .str "a"), ("x", .num 1)]])])
        (.obj [("inputs", .arr [.obj [("id", .str "a"), ("x", .num 2)],
          .obj [("id", .str "b"), ("x", .num 3)]])]) =
      .ok (.obj [("inputs", .arr [.obj [("id", .str "a"), ("x", .num 2)],
          .obj [("id", .str "b"), ("x", .num 3)]])]) := by
  refine ⟨⟨A.map (replacement B) ++ newItems A B, mergeArrays_distinct B A hA hB, ?_, ?_, ?_, ?_⟩,
    deepMerge_returns hE, by decide⟩
  · intro R hR
    exact deepMerge_array_field hE hI hkeys (mergeArrays_distinct B A hA hB) hR
  · simp
  · intro i hi
    rw [List.getElem?_append_left (by simpa using hi)]
    simp [hi]
  · rw [List.drop_left' (by simp)]

/-- C6 on `sampleExisting` and `sampleIncoming`, whose inputs share the id "a". -/
theorem C6_array_merge_identity_rule_witness :
    field "inputs" sampleExisting = some (.arr sampleA) ∧
    getOwn "inputs" sampleIncoming = some (.arr sampleB) ∧
    (keysOf sampleIncoming).Nodup ∧ DistinctIds sampleA ∧ DistinctIds sampleB ∧
    tame sampleExisting = true ∧ tame (.obj sampleIncoming) = true ∧
    (∃ M, mergeArrays sampleA sampleB = .ok M ∧
      (∀ R, deepMerge sampleExisting (.obj sampleIncoming) = .ok R →
        field "inputs" R = some (.arr M)) ∧
      M.length = sampleA.length + (newItems sampleA sampleB).length ∧
      (∀ i (hi : i < sampleA.length), M[i]? = some (replacement sampleB sampleA[i])) ∧
      M.drop sampleA.length = newItems sampleA sampleB) ∧
    ∃ R, deepMerge sampleExisting (.obj sampleIncoming) = .ok R :=
  have h := C6_array_merge_identity_rule sampleExisting sampleIncoming "inputs" sampleA sampleB
    (by decide) (by decide) (by decide) (by decide) (by decide)
  ⟨by decide, by decide, by decide, by decide, by decide, by decide, by decide,
    h.1, h.2.1 (by decide) (by decide)⟩

/-- C10 (items without an id are never deduplicated).  When a key holds an
array `A` of objects in the existing object and an array `B` of objects in the
incoming object, and no item of `B` has an `id` property, the array merge
returns `A` followed by `B`, of length `|A| + |B|`, and `deepMerge` stores it
under the key; nothing is assumed about items of `B` being different from
items of `A`.  The property names of the incoming object are distinct, as in
every JavaScript object.  On tame objects `deepMerge` does return. -/
theorem C10_items_without_id_appended (E : Json) (I : Props) (k : String) (A B : List Json)
    (hE : field k E = some (.arr A)) (hI : getOwn k I = some (.arr B))
    (hkeys : (keysOf I).Nodup)
    (hA : ∀ a ∈ A, isObject a = true) (hB : ∀ b ∈ B, lacksId b = true) :
    mergeArrays A B = .ok (A ++ B) ∧ (A ++ B).length = A.length + B.length ∧
    (∀ R, deepMerge E (.obj I) = .ok R → field k R = some (.arr (A ++ B))) ∧
    (tame E = true → tame (.obj I) = true → ∃ R, deepMerge E (.obj I) = .ok R) :=
  ⟨mergeArrays_lacksId B A hA hB, List.length_append A B,
    fun _ hR => deepMerge_array_field hE hI hkeys (mergeArrays_lacksId B A hA hB) hR,
    deepMerge_returns hE⟩

/-- C10 on two arrays that both start with the object `{x:1}`. -/
theorem C10_items_without_id_appended_witness :
    sampleNoIdB.head? = sampleNoIdA.head? ∧
    (∀ a ∈ sampleNoIdA, isObject a = true) ∧ (∀ b ∈ sampleNoIdB, lacksId b = true) ∧
    mergeArrays sampleNoIdA sampleNoIdB = .ok (sampleNoIdA ++ sampleNoIdB) ∧
    (sampleNoIdA ++ sampleNoIdB).length = sampleNoIdA.length + sampleNoIdB.length ∧
    (∀ R, deepMerge (.obj [("args", .arr sampleNoIdA)]) (.obj [("args", .arr sampleNoIdB)]) =
      .ok R → field "args" R = some (.arr (sampleNoIdA ++ sampleNoIdB))) ∧
    ∃ R, deepMerge (.obj [("args", .arr sampleNoIdA)]) (.obj [("args", .arr sampleNoIdB)]) =
      .ok R :=
  have h := C10_items_without_id_appended (.obj [("args", .arr sampleNoIdA)])
    [("args", .arr sampleNoIdB)] "args" sampleNoIdA sampleNoIdB
    (by decide) (by decide) (by decide) (by decide) (by decide)
  ⟨by decide, by decide, by decide, h.1, h.2.1, h.2.2.1, h.2.2.2 (by decide) (by decide)⟩

/-- C2, amended (ids of the merged inputs).  For an existing document `E` and
an incoming document `I` whose `inputs` are arrays of objects with non-empty
string ids, distinct within each document: the array merge returns an array
`M` that `deepMerge` stores under `inputs`; every id of `E.inputs` or
`I.inputs` is the id of exactly one item of `M`; and an item of `M` with the
id of a descriptor of `I` is that descriptor.  The property names of `I` are
distinct, as in every JavaScript object.  On tame documents `deepMerge` does
return. -/
theorem C2_input_ids_exactly_once (E : Json) (I : Props) (A B : List Json)
    (hE : field "inputs" E = some (.arr A)) (hI : getOwn "inputs" I = some (.arr B))
    (hkeys : (keysOf I).Nodup) (hA : DistinctIds A) (hB : DistinctIds B) :
    (∃ M, mergeArrays A B = .ok M ∧
      (∀ R, deepMerge E (.obj I) = .ok R → field "inputs" R = some (.arr M)) ∧
      (∀ s, some s ∈ A.map strId ∨ some s ∈ B.map strId →
        (M.filter (fun x => strId x = some s)).length = 1) ∧
      (∀ b ∈ B, ∀ x ∈ M, strId x = strId b → x = b)) ∧
    (tame E = true → tame (.obj I) = true → ∃ R, deepMerge E (.obj I) = .ok R) := by
  refine ⟨⟨A.map (replacement B) ++ newItems A B, mergeArrays_distinct B A hA hB, ?_, ?_, ?_⟩,
    deepMerge_returns hE⟩
  · intro R hR
    exact deepMerge_array_field hE hI hkeys (mergeArrays_distinct B A hA hB) hR
  · intro s hs
    apply items_with_id_once _ (merged_ids_nodup hA hB)
    rw [List.map_append, map_strId_replacement, List.mem_append]
    rcases hs with hs | hs
    · exact Or.inl hs
    · by_cases hin : some s ∈ A.map strId
      · exact Or.inl hin
      · obtain ⟨b, hb, hbs⟩ := List.mem_map.mp hs
        exact Or.inr (List.mem_map.mpr ⟨b, mem_newItems.mpr ⟨hb, hbs ▸ hin⟩, hbs⟩)
  · intro b hb x hx hid
    exact merged_item_of_incoming hB hb hx hid

/-- C2, amended, on `sampleExisting` and `sampleIncoming`. -/
theorem C2_input_ids_exactly_once_witness :
    field "inputs" sampleExisting = some (.arr sampleA) ∧
    getOwn "inputs" sampleIncoming = some (.arr sampleB) ∧
    (keysOf sampleIncoming).Nodup ∧ DistinctIds sampleA ∧ DistinctIds sampleB ∧
    tame sampleExisting = true ∧ tame (.obj sampleIncoming) = true ∧
    (∃ M, mergeArrays sampleA sampleB = .ok M ∧
      (∀ R, deepMerge sampleExisting (.obj sampleIncoming) = .ok R →
        field "inputs" R = some (.arr M)) ∧
      (∀ s, some s ∈ sampleA.map strId ∨ some s ∈ sampleB.map strId →
        (M.filter (fun x => strId x = some s)).length = 1) ∧
      (∀ b ∈ sampleB, ∀ x ∈ M, strId x = strId b → x = b)) ∧
    ∃ R, deepMerge sampleExisting (.obj sampleIncoming) = .ok R :=
  have h := C2_input_ids_exactly_once sampleExisting sampleIncoming sampleA sampleB
    (by decide) (by decide) (by decide) (by decide) (by decide)
  ⟨by decide, by decide, by decide, by decide, by decide, by decide, by decide,
    h.1, h.2 (by decide) (by decide)⟩

/-- C2 as stated fails for the empty string as id: the two documents each
hold one descriptor, with id "", and the merged inputs hold two items with
that id. -/
theorem C2_empty_id_counterexample :
    deepMerge (.obj [("inputs", .arr [emptyIdInput])]) (.obj [("inputs", .arr [emptyIdInput])]) =
      .ok (.obj [("inputs", .arr [emptyIdInput, emptyIdInput])]) ∧
    ([emptyIdInput].map strId).Nodup ∧
    some "" ∈ [emptyIdInput].map strId ∧
    ([emptyIdInput, emptyIdInput].filter (fun x => strId x = some "")).length = 2 := by
  decide

/-- C3 (servers of the existing document are kept).  For documents `E` and `I`
whose `servers` are both objects, a key of `E.servers` that is not a key of
`I.servers` is, in every result of `deepMerge(E, I)`, a key of the result's
`servers` with the value it has in `E.servers`.  The property names of `I`
are distinct, as in every JavaScript object.  On tame documents `deepMerge`
does return. -/
theorem C3_existing_servers_kept (E : Json) (I servers incoming : Props) (k : String)
    (v : Json)
    (hE : field "servers" E = some (.obj servers))
    (hI : getOwn "servers" I = some (.obj incoming))
    (hkeys : (keysOf I).Nodup)
    (hk : getOwn k servers = some v) (hnot : k ∉ keysOf incoming) :
    (∀ R, deepMerge E (.obj I) = .ok R →
      ∃ merged, field "servers" R = some (.obj merged) ∧ getOwn k merged = some v) ∧
    (tame E = true → tame (.obj I) = true → ∃ R, deepMerge E (.obj I) = .ok R) := by
  refine ⟨?_, deepMerge_returns hE⟩
  intro R hR
  obtain ⟨result, rs, hs, hm, rfl⟩ := deepMerge_obj_ok hR
  cases E with
  | obj es =>
    simp only [spread, Except.ok.injEq] at hs
    subst hs
    obtain ⟨m, hst, hget⟩ := mergeProps_stored I es hkeys hm "servers" _ hI
    simp only [field] at hE
    rw [hE] at hst
    simp only [storedValue] at hst
    obtain ⟨r2, merged, hs2, hm2, rfl⟩ := deepMerge_obj_ok hst
    simp only [spread, Except.ok.injEq] at hs2
    subst hs2
    refine ⟨merged, by simp [field, hget], ?_⟩
    rw [mergeProps_untouched incoming servers hm2 k hnot, hk]
  | _ => simp [field] at hE

/-- C3 on `sampleExisting` and `sampleIncoming`: the server "mine" is kept. -/
theorem C3_existing_servers_kept_witness :
    tame sampleExisting = true ∧ tame (.obj sampleIncoming) = true ∧
    (∀ R, deepMerge sampleExisting (.obj sampleIncoming) = .ok R →
      ∃ merged, field "servers" R = some (.obj merged) ∧
        getOwn "mine" merged =
          some (.obj [("type", .str "http"), ("url", .str "http://localhost")])) ∧
    ∃ R, deepMerge sampleExisting (.obj sampleIncoming) = .ok R :=
  have h := C3_existing_servers_kept sampleExisting sampleIncoming
    [("mine", .obj [("type", .str "http"), ("url", .str "http://localhost")]),
      ("memory", .obj [("type", .str "stdio"), ("command", .str "node")])]
    [("memory", .obj [("type", .str "stdio"), ("command", .str "npx")])]
    "mine" (.obj [("type", .str "http"), ("url", .str "http://localhost")])
    (by decide) (by decide) (by decide) (by decide) (by decide)
  ⟨by decide, by decide, h.1, h.2 (by decide) (by decide)⟩

/-- C9, at two failing inputs.  First, the existing object holds an object
under `a` and the incoming object holds `null` there: `deepMerge` throws a
`TypeError` instead of returning an object with `null` under `a`.  Second, an
input the script can meet: the existing document holds a number under
`servers` and `[null]` under `inputs`, the incoming document is the built
configuration; the overwrite rule applies to `servers`, and `deepMerge` throws
a `TypeError` on `inputs` instead of returning. -/
theorem C9_null_over_object_throws :
    deepMerge (.obj [("a", .obj [])]) (.obj [("a", .null)]) = .error .typeError ∧
    deepMerge (.obj [("inputs", .arr [.null]), ("servers", .num 1)]) buildMcpConfig =
      .error .typeError := by
  decide

/-! ### The filesystem model -/

theorem lookupNode_storeNode_self (p : Path) (n : Node) :
    ∀ (nodes : List (Path × Node)), lookupNode p (storeNode p n nodes) = some n
  | [] => by simp [storeNode, lookupNode]
  | (q, m) :: rest => by
    by_cases h : q = p
    · simp [storeNode, lookupNode, h]
    · simp [storeNode, lookupNode, h, lookupNode_storeNode_self p n rest]

theorem lookupNode_storeNode_ne {p q : Path} (n : Node) (h : p ≠ q) :
    ∀ (nodes : List (Path × Node)), lookupNode p (storeNode q n nodes) = lookupNode p nodes
  | [] => by simp [storeNode, lookupNode, Ne.symm h]
  | (r, m) :: rest => by
    by_cases h1 : r = q
    · have : ¬ r = p := fun e => h (e ▸ h1)
      simp [storeNode, lookupNode, h1, Ne.symm h]
    · simp [storeNode, lookupNode, h1, lookupNode_storeNode_ne n h rest]

theorem any_dir_of_lookupNode {p : Path} {n : Node} :
    ∀ {nodes : List (Path × Node)}, lookupNode p nodes = some n →
      nodes.any (fun entry => decide (entry.1.dir = p.dir)) = true
  | [], h => by simp [lookupNode] at h
  | (q, m) :: rest, h => by
    by_cases hq : q = p
    · simp [hq]
    · simp only [lookupNode, hq, if_false] at h
      simp [any_dir_of_lookupNode h]

/-- A directory that holds a path exists. -/
theorem dirExists_of_lookupNode {w : World} {p : Path} {n : Node}
    (h : lookupNode p w.nodes = some n) : dirExists w p.dir = true := by
  simp only [dirExists, any_dir_of_lookupNode h, Bool.or_true]

theorem mkdirSync_of_dirExists {w : World} {dir : String} (h : dirExists w dir = true) :
    mkdirSync dir w = (record (.mkdir dir) w, .ok ()) := by
  simp [mkdirSync, h]

theorem writeFileSync_ok {w : World} {p : Path} (content : Bytes)
    (hd : dirExists w p.dir = true) (hw : p ∉ w.writeDenied) :
    writeFileSync p content w =
      ({ record (.writeFile p content) w with
          nodes := storeNode p (.file content) w.nodes }, .ok ()) := by
  simp [writeFileSync, hd, hw, record]

theorem backup_name_ne (stamp : String) : "mcp.json" ++ (".backup." ++ stamp) ≠ "mcp.json" := by
  intro h
  have := congrArg String.length h
  simp only [String.length_append] at this
  have h8 : ("mcp.json" : String).length = 8 := by decide
  have h9 : (".backup." : String).length = 8 := by decide
  omega

/-! ### Claims on `writeMcpJson` -/

/-- The `catch` branch of lines 250-257 on a file that does not parse. -/
theorem finalConfigFor_corrupt (h : Host) (target : Path) (N : Json) (w : World)
    (original : Bytes)
    (hfile : lookupNode target w.nodes = some (.file original))
    (hcorrupt : h.parse (h.decode original) = none)
    (hw : (⟨target.dir, target.name ++ (".backup." ++ toString w.clock)⟩ : Path) ∉
      w.writeDenied) :
    ∃ w2, finalConfigFor h target N w = (w2, .ok N) ∧
      w2.nodes = storeNode ⟨target.dir, target.name ++ (".backup." ++ toString w.clock)⟩
        (.file original) w.nodes ∧
      w2.dirs = w.dirs ∧ w2.writeDenied = w.writeDenied := by
  have hd : dirExists w target.dir = true := dirExists_of_lookupNode hfile
  have hex : existsSync target w = true := by simp [existsSync, hfile]
  have hread : ∀ e, readFileSync target (record e w) = .ok original := by
    intro e; simp [readFileSync, record, hfile]
  have hread0 : readFileSync target w = .ok original := by
    simp [readFileSync, hfile]
  have htry : tryMerge h target N w = .error .syntaxError := by
    simp [tryMerge, hread0, hcorrupt]
  unfold finalConfigFor
  simp only [hex, if_true, htry, logWarn, hread]
  rw [writeFileSync_ok original (by simpa [dirExists, record] using hd)
    (by simpa [record] using hw)]
  exact ⟨_, rfl, rfl, rfl, rfl⟩

/-- C5 (corruption handling).  The target file exists and its content does
not parse; the writes of the backup and of the target are not denied.  Then a
non-dry-run `writeMcpJson(configDir, N)` returns normally, the file
`mcp.json.backup.<Date.now()>` next to the target holds the bytes the target
held, and the target holds the serialization of `N`. -/
theorem C5_corrupt_file_backed_up (h : Host) (configDir : String) (N : Json) (w : World)
    (original : Bytes)
    (hfile : lookupNode ⟨configDir, "mcp.json"⟩ w.nodes = some (.file original))
    (hcorrupt : h.parse (h.decode original) = none)
    (hbackup : (⟨configDir, "mcp.json" ++ (".backup." ++ toString w.clock)⟩ : Path) ∉
      w.writeDenied)
    (htarget : (⟨configDir, "mcp.json"⟩ : Path) ∉ w.writeDenied) :
    (writeMcpJson h false configDir N w).2 = .ok () ∧
    lookupNode ⟨configDir, "mcp.json" ++ (".backup." ++ toString w.clock)⟩
      (writeMcpJson h false configDir N w).1.nodes = some (.file original) ∧
    lookupNode ⟨configDir, "mcp.json"⟩ (writeMcpJson h false configDir N w).1.nodes =
      some (.file (h.encode (h.stringify N))) := by
  have hd : dirExists w configDir = true := dirExists_of_lookupNode hfile
  obtain ⟨w2, hfin, hnodes, hdirs, hden⟩ :=
    finalConfigFor_corrupt h ⟨configDir, "mcp.json"⟩ N (record (.mkdir configDir) w) original
      hfile hcorrupt hbackup
  replace hnodes : w2.nodes =
      storeNode ⟨configDir, "mcp.json" ++ (".backup." ++ toString w.clock)⟩ (.file original)
        w.nodes := hnodes
  have hne : (⟨configDir, "mcp.json"⟩ : Path) ≠
      ⟨configDir, "mcp.json" ++ (".backup." ++ toString w.clock)⟩ := by
    intro e
    exact backup_name_ne _ (congrArg Path.name e).symm
  have hkeep : lookupNode ⟨configDir, "mcp.json"⟩ w2.nodes = some (.file original) := by
    rw [hnodes, lookupNode_storeNode_ne _ hne]
    exact hfile
  have hd2 : dirExists w2 configDir = true := dirExists_of_lookupNode hkeep
  have hw2 : (⟨configDir, "mcp.json"⟩ : Path) ∉ w2.writeDenied := by
    rw [hden]; exact htarget
  simp only [writeMcpJson, Bool.false_eq_true, if_false, mkdirSync_of_dirExists hd, hfin]
  rw [writeFileSync_ok _ hd2 hw2]
  refine ⟨rfl, ?_, ?_⟩
  · simp only [log, record]
    rw [lookupNode_storeNode_ne _ (Ne.symm hne), hnodes, lookupNode_storeNode_self]
  · simp only [log, record]
    rw [lookupNode_storeNode_self]

/-- C5 on a target that holds the two bytes of the text "no". -/
theorem C5_corrupt_file_backed_up_witness :
    lookupNode ⟨sampleDir, "mcp.json"⟩ (sampleWorld [110, 111]).nodes =
      some (.file [110, 111]) ∧
    sampleHost.parse (sampleHost.decode [110, 111]) = none ∧
    (writeMcpJson sampleHost false sampleDir buildMcpConfig (sampleWorld [110, 111])).2 =
      .ok () ∧
    lookupNode ⟨sampleDir, "mcp.json" ++ (".backup." ++ toString (sampleWorld [110, 111]).clock)⟩
      (writeMcpJson sampleHost false sampleDir buildMcpConfig (sampleWorld [110, 111])).1.nodes =
        some (.file [110, 111]) ∧
    lookupNode ⟨sampleDir, "mcp.json"⟩
      (writeMcpJson sampleHost false sampleDir buildMcpConfig (sampleWorld [110, 111])).1.nodes =
        some (.file (sampleHost.encode (sampleHost.stringify buildMcpConfig))) :=
  ⟨by decide, by decide,
    C5_corrupt_file_backed_up sampleHost sampleDir buildMcpConfig (sampleWorld [110, 111])
      [110, 111] (by decide) (by decide) (by decide) (by decide)⟩

/-- The merge path of lines 246-249: when the target parses and `deepMerge`
returns, the call writes the serialization of the merged document to the
target and touches no other path. -/
theorem writeMcpJson_merge_path (h : Host) (configDir : String) (N E R : Json) (w : World)
    (content : Bytes)
    (hfile : lookupNode ⟨configDir, "mcp.json"⟩ w.nodes = some (.file content))
    (hparse : h.parse (h.decode content) = some E)
    (hmerge : deepMerge E N = .ok R)
    (htarget : (⟨configDir, "mcp.json"⟩ : Path) ∉ w.writeDenied) :
    (writeMcpJson h false configDir N w).2 = .ok () ∧
    (writeMcpJson h false configDir N w).1.nodes =
      storeNode ⟨configDir, "mcp.json"⟩ (.file (h.encode (h.stringify R))) w.nodes := by
  have hd : dirExists w configDir = true := dirExists_of_lookupNode hfile
  have hex : existsSync ⟨configDir, "mcp.json"⟩ (record (.mkdir configDir) w) = true := by
    simp [existsSync, record, hfile]
  have htry : tryMerge h ⟨configDir, "mcp.json"⟩ N (record (.mkdir configDir) w) = .ok R := by
    simp [tryMerge, readFileSync, record, hfile, hparse, hmerge]
  simp only [writeMcpJson, Bool.false_eq_true, if_false, mkdirSync_of_dirExists hd,
    finalConfigFor, hex, if_true, htry]
  rw [writeFileSync_ok _ (by simpa [dirExists, log, record] using hd)
    (by simpa [log, record] using htarget)]
  exact ⟨rfl, rfl⟩

/-- C4, at the failing input: the target holds `{"inputs":[null]}`, which
parses, and the new document is the built configuration.  `deepMerge` throws a
`TypeError` on the `null` item, the `catch` clause of line 250 takes it, and
the call writes a backup of the file and overwrites the target with the
serialization of the new document alone. -/
theorem C4_parsed_file_takes_backup_path :
    sampleHost.parse (sampleHost.decode (sampleHost.encode nullInputText)) =
      some (.obj [("inputs", .arr [.null])]) ∧
    deepMerge (.obj [("inputs", .arr [.null])]) buildMcpConfig = .error .typeError ∧
    (writeMcpJson sampleHost false sampleDir buildMcpConfig
      (sampleWorld (sampleHost.encode nullInputText))).2 = .ok () ∧
    lookupNode ⟨sampleDir, "mcp.json.backup.1700000000000"⟩
      (writeMcpJson sampleHost false sampleDir buildMcpConfig
        (sampleWorld (sampleHost.encode nullInputText))).1.nodes =
      some (.file (sampleHost.encode nullInputText)) ∧
    lookupNode ⟨sampleDir, "mcp.json"⟩
      (writeMcpJson sampleHost false sampleDir buildMcpConfig
        (sampleWorld (sampleHost.encode nullInputText))).1.nodes =
      some (.file (sampleHost.encode (sampleHost.stringify buildMcpConfig))) := by
  decide

/-! ### Claims on `main` -/

theorem Untouched.refl (w : World) : Untouched w w := ⟨rfl, rfl, rfl⟩

theorem Untouched.trans {w w1 w2 : World} (h1 : Untouched w w1) (h2 : Untouched w1 w2) :
    Untouched w w2 :=
  ⟨h2.1.trans h1.1, h2.2.1.trans h1.2.1, h2.2.2.trans h1.2.2⟩

theorem Untouched.console (level : Level) (message : String) (w : World) :
    Untouched w (record (.console level message) w) := by
  refine ⟨rfl, rfl, ?_⟩
  simp [record, List.filter_append, Event.isEffect]

theorem warmPackage_dry (h : Host) (w : World) (packageName : String) :
    Untouched w (warmPackage h true w packageName) := by
  simp only [warmPackage, if_true, logDry]
  exact Untouched.console _ _ w

theorem warmLoop_dry (h : Host) :
    ∀ (packages : List String) (w : World),
      Untouched w (packages.foldl (warmPackage h true) w)
  | [], w => Untouched.refl w
  | p :: rest, w => (warmPackage_dry h w p).trans (warmLoop_dry h rest _)

theorem warmNpxCache_dry (h : Host) (w : World) : Untouched w (warmNpxCache h true w) :=
  (Untouched.console _ _ w).trans (warmLoop_dry h NPX_PACKAGES _)

theorem configureVariants_dry (h : Host) (mcpConfig : Json) :
    ∀ (variants : List String) (w : World),
      (configureVariants h true mcpConfig variants w).2 = .ok () ∧
        Untouched w (configureVariants h true mcpConfig variants w).1
  | [], w => ⟨rfl, Untouched.refl w⟩
  | v :: rest, w => by
    have ih := configureVariants_dry h mcpConfig rest
      (logDry ("Would write/merge " ++ h.join [getVSCodeUserConfigDir h v, "mcp.json"])
        (logStep ("Configuring " ++ v) w))
    simp only [configureVariants, writeMcpJson, if_true]
    exact ⟨ih.1, ((Untouched.console _ _ w).trans (Untouched.console _ _ _)).trans ih.2⟩

theorem beforeVariants_dry (h : Host) (skipCacheWarm : Bool) (w : World) :
    Untouched w (beforeVariants h true skipCacheWarm w) := by
  unfold beforeVariants
  refine Untouched.trans ?_ ((Untouched.console _ _ _).trans (Untouched.console _ _ _))
  cases skipCacheWarm
  · exact warmNpxCache_dry h w
  · exact Untouched.console _ _ w

/-- C8 (dry run).  With `--dry-run` set, for every host, every initial world
(whatever is under the target paths) and either value of `--skip-cache-warm`,
the run ends normally with exit status 0, the paths and the directories of the
filesystem are what they were, and no call of `mkdirSync`, `writeFileSync` or
`execSync` was added to the record. -/
theorem C8_dry_run_has_no_effects (h : Host) (skipCacheWarm : Bool) (w : World) :
    (run h true skipCacheWarm w).2 = .ok 0 ∧
    (run h true skipCacheWarm w).1.nodes = w.nodes ∧
    (run h true skipCacheWarm w).1.dirs = w.dirs ∧
    (run h true skipCacheWarm w).1.trace.filter Event.isEffect =
      w.trace.filter Event.isEffect := by
  have hb := beforeVariants_dry h skipCacheWarm w
  have hc := configureVariants_dry h buildMcpConfig ["Code", "Code - Insiders"]
    (beforeVariants h true skipCacheWarm w)
  have hmain : main h true skipCacheWarm w =
      ((main h true skipCacheWarm w).1, .ok ()) := by
    apply Prod.ext
    · rfl
    · exact hc.1
  have hrun : run h true skipCacheWarm w = ((main h true skipCacheWarm w).1, .ok 0) := by
    unfold run
    rw [hmain]
  rw [hrun]
  exact ⟨rfl, hb.trans hc.2⟩

/-- C7 as stated fails: the directory of the first variant cannot be created,
`writeMcpJson` throws for it, and the run ends with exit status 1 without a
`mkdirSync` for the directory of the second variant and without the step
"Configuring Code - Insiders"; in a run without that failure both are there
(every non-dry-run call of `writeMcpJson` starts with `mkdirSync(configDir)`). -/
theorem C7_first_failure_aborts_counterexample :
    (writeMcpJson sampleHost false (getVSCodeUserConfigDir sampleHost "Code") buildMcpConfig
      (logStep "Configuring Code" (beforeVariants sampleHost false true deniedWorld))).2 =
        .error .ioError ∧
    (run sampleHost false true deniedWorld).2 = .ok 1 ∧
    Event.mkdir (getVSCodeUserConfigDir sampleHost "Code - Insiders") ∉
      (run sampleHost false true deniedWorld).1.trace ∧
    Event.console .logStep "Configuring Code - Insiders" ∉
      (run sampleHost false true deniedWorld).1.trace ∧
    Event.mkdir (getVSCodeUserConfigDir sampleHost "Code - Insiders") ∈
      (run sampleHost false true (sampleWorld [110, 111])).1.trace ∧
    Event.console .logStep "Configuring Code - Insiders" ∈
      (run sampleHost false true (sampleWorld [110, 111])).1.trace := by
  decide

/-- C7, amended (a failure of the first target ends the run).  In a
non-dry-run execution over the two variants, if `writeMcpJson` throws for
"Code", `main` ends there with that exception, in the state the failed call
left: nothing is done for "Code - Insiders".  The handler of lines 339-342
then logs the fatal error and the process exits with status 1. -/
theorem C7_first_failure_ends_run (h : Host) (skipCacheWarm : Bool) (w w1 : World)
    (e : Failure) (he : e ≠ .outsideModel)
    (hfail : writeMcpJson h false (getVSCodeUserConfigDir h "Code") buildMcpConfig
      (logStep "Configuring Code" (beforeVariants h false skipCacheWarm w)) = (w1, .error e)) :
    main h false skipCacheWarm w = (w1, .error e) ∧
    run h false skipCacheWarm w = (logError ("Fatal error: " ++ h.messageOf e) w1, .ok 1) := by
  have hs : ("Configuring " ++ "Code" : String) = "Configuring Code" := by decide
  have hmain : main h false skipCacheWarm w = (w1, .error e) := by
    simp only [main, configureVariants, hs, hfail]
  refine ⟨hmain, ?_⟩
  unfold run
  rw [hmain]
  cases e with
  | outsideModel => exact absurd rfl he
  | _ => rfl

/-- C7, amended, on `deniedWorld`. -/
theorem C7_first_failure_ends_run_witness :
    main sampleHost false true deniedWorld =
      (record (.mkdir sampleDir)
        (logStep "Configuring Code" (beforeVariants sampleHost false true deniedWorld)),
        .error .ioError) ∧
    run sampleHost false true deniedWorld =
      (logError ("Fatal error: " ++ sampleHost.messageOf .ioError)
        (record (.mkdir sampleDir)
          (logStep "Configuring Code" (beforeVariants sampleHost false true deniedWorld))),
        .ok 1) :=
  C7_first_failure_ends_run sampleHost true deniedWorld _ .ioError (by decide) (by rfl)

end McpSetup
